import Mathlib

/-!
# Verification of the gdocs-me-up Google-Docs → HTML exporter

This file is a shallow embedding, in Lean 4, of the parts of the exporter
that the verified properties talk about:

* the generic string utilities of `src/lib/utils.js` (`escapeHtml`,
  `deepMerge`, `deepCopy`),
* the list engine of `src/lib/lists.js` (`inferNestingLevel`,
  `isNumberedList`, `detectListChange`, `handleListState`, `closeAllLists`),
* the inline list engine, paragraph renderer and body-content pass of the
  main exporter script (`exportDocToHTML`, `detectListChange`,
  `handleListState`, `closeAllLists`, `renderParagraph`, `renderTextRun`,
  `mergeTextRuns`, `renderTable`, `renderTableOfContents`,
  `renderInlineObject`, auxiliary renderers), kept in namespace `Export`,
* `mergeTextRuns` / `isSameTextStyle` of
  `src/google-docs-high-fidelity-export.js`, kept in namespace `Main`.

Modelling conventions (JavaScript → Lean):

* strings are Lean `String`s; character-level operations are carried out on
  `String.data` (`List Char`) by small executable helpers defined below that
  mirror the JS semantics of `split`, `includes`, `replace`, `startsWith`,
  `toLowerCase`, `padStart`;
* JS numbers appearing in the document tree (point magnitudes, scale
  factors, color channels) are modelled as `ℚ`; integer-valued quantities
  (nesting levels, font weights, spans) as `ℤ`.  Rounding (`Math.round`)
  is `⌊q + 1/2⌋`, matching JS round-half-up.  The decimal rendering of a
  non-integral JS float is not modelled bit-for-bit (IEEE-754 shortest
  round-trip printing); `qToString` prints integers exactly and falls back
  to a fraction notation otherwise.  No verified property depends on the
  printed form of a non-integral number;
* absent JSON fields are `Option.none`; explicit `null`s, which the Docs
  API does not emit inside style objects, are identified with absent
  fields.  JS truthiness tests on possibly-absent values are modelled
  field-by-field (`0`, `""`, `false`, `null`/`undefined` are falsy);
* the side channels that do not influence the produced HTML lines — the
  `usedFonts` font set, image byte fetching and file writing, logging —
  are not modelled.  For images only the (deterministic) `<img …>` markup
  computation is embedded; `path.relative(outputDir, outputDir/images/f)`
  is the constant `images/f`.
-/

set_option maxRecDepth 4096

namespace GD

/-! ## Character-list string helpers (JS string methods) -/

/-- JS `String.prototype.startsWith` on character lists. -/
def startsWithL : List Char → List Char → Bool
  | [], _ => true
  | _ :: _, [] => false
  | p :: ps, c :: cs => p == c && startsWithL ps cs

/-- JS `String.prototype.includes` on character lists. -/
def hasSubL (pat : List Char) : List Char → Bool
  | [] => pat.isEmpty
  | c :: cs => startsWithL pat (c :: cs) || hasSubL pat cs

/-- JS `String.prototype.split(sep)` for a one-character separator. -/
def splitCharL (sep : Char) : List Char → List (List Char)
  | [] => [[]]
  | c :: cs =>
    if c = sep then [] :: splitCharL sep cs
    else
      match splitCharL sep cs with
      | [] => [[c]]
      | h :: t => (c :: h) :: t

/-- JS `String.prototype.replace(pat, repl)` with a string pattern:
replaces the first occurrence only. -/
def replaceOnceL (pat repl : List Char) : List Char → List Char
  | [] => []
  | c :: cs =>
    if startsWithL pat (c :: cs) then repl ++ (c :: cs).drop pat.length
    else c :: replaceOnceL pat repl cs

/-- JS `String.prototype.replace(/pat/g, repl)` with a global pattern:
replaces every (non-overlapping) occurrence, scanning left to right.
Structurally recursive on a fuel argument (one unit per input character)
so that concrete runs reduce inside the kernel. -/
def replaceAllAux (pat repl : List Char) : Nat → List Char → List Char
  | 0, l => l
  | _ + 1, [] => []
  | fuel + 1, c :: cs =>
    if startsWithL pat (c :: cs) then
      match pat with
      | [] => c :: cs
      | _ :: ps => repl ++ replaceAllAux pat repl fuel (cs.drop ps.length)
    else c :: replaceAllAux pat repl fuel cs

def replaceAllL (pat repl : List Char) (l : List Char) : List Char :=
  replaceAllAux pat repl l.length l

/-- String-level wrappers. -/
def sw (pat s : String) : Bool := startsWithL pat.data s.data

def hasSub (pat s : String) : Bool := hasSubL pat.data s.data

def jsSplit (s : String) (sep : Char) : List String :=
  (splitCharL sep s.data).map String.mk

def replaceOnce (s pat repl : String) : String :=
  String.mk (replaceOnceL pat.data repl.data s.data)

def replaceAll (s pat repl : String) : String :=
  String.mk (replaceAllL pat.data repl.data s.data)

/-- JS `String.prototype.toLowerCase` (ASCII is all the source needs). -/
def toLowerS (s : String) : String := String.mk (s.data.map Char.toLower)

/-- JS `String.prototype.toUpperCase`. -/
def toUpperS (s : String) : String := String.mk (s.data.map Char.toUpper)

/-! ## JS number rendering and rounding -/

/-- Decimal digits of a natural number, most significant first
(fuel-based structural recursion; `n + 1` units of fuel always suffice). -/
def natDigitsAux : Nat → Nat → List Char
  | 0, _ => []
  | fuel + 1, n =>
    if n < 10 then [Char.ofNat (48 + n)]
    else natDigitsAux fuel (n / 10) ++ [Char.ofNat (48 + n % 10)]

def natDigits (n : Nat) : List Char := natDigitsAux (n + 1) n

def natToString (n : Nat) : String := String.mk (natDigits n)

/-- Decimal rendering of a JS integer-valued number. -/
def intToString (i : Int) : String :=
  if i < 0 then "-" ++ natToString i.natAbs else natToString i.natAbs

/-- JS `Math.round`: round half up (towards +∞). -/
def jsRound (q : ℚ) : Int := ⌊q + 1/2⌋

/-- Rendering of a JS number: exact for integers; non-integral rationals
(which would print as IEEE-754 shortest-round-trip decimals in JS) are
approximated by fraction notation.  No verified claim depends on this
branch. -/
def qToString (q : ℚ) : String :=
  if q.den = 1 then intToString q.num
  else intToString q.num ++ "/" ++ natToString q.den

/-- `Number.prototype.toString(16)` for the values fed to `rgbToHex`. -/
def hexString (i : Int) : String :=
  if i < 0 then "-" ++ String.mk (Nat.toDigits 16 i.natAbs)
  else String.mk (Nat.toDigits 16 i.natAbs)

/-- JS `String.prototype.padStart(2, '0')`. -/
def padStart2 (s : String) : String :=
  if s.length ≥ 2 then s
  else if s.length = 1 then "0" ++ s
  else "00"

end GD

namespace Lib

/-! ## `src/lib/utils.js` — `escapeHtml`

The source applies four global character replacements in sequence:
`&`→`&amp;`, then `<`→`&lt;`, then `>`→`&gt;`, then `"`→`&quot;`.
Null/undefined input short-circuits to the empty string. -/

def escAmp (l : List Char) : List Char :=
  l.flatMap fun c => if c = '&' then "&amp;".data else [c]

def escLt (l : List Char) : List Char :=
  l.flatMap fun c => if c = '<' then "&lt;".data else [c]

def escGt (l : List Char) : List Char :=
  l.flatMap fun c => if c = '>' then "&gt;".data else [c]

def escQuot (l : List Char) : List Char :=
  l.flatMap fun c => if c = '"' then "&quot;".data else [c]

def escapeHtmlChars (l : List Char) : List Char :=
  escQuot (escGt (escLt (escAmp l)))

/-- `escapeHtml` of `src/lib/utils.js`.  `none` stands for the JS `null`
and `undefined` inputs, which return `''`. -/
def escapeHtml : Option String → String
  | none => ""
  | some s => String.mk (escapeHtmlChars s.data)

/-- Per-character specification of the replacement table: what a single
input character contributes to the output. -/
def escChar (c : Char) : List Char :=
  if c = '&' then "&amp;".data
  else if c = '<' then "&lt;".data
  else if c = '>' then "&gt;".data
  else if c = '"' then "&quot;".data
  else [c]

end Lib

namespace Lib

/-! ## `src/lib/utils.js` — `deepMerge` and `deepCopy`

The style dictionaries the exporter merges are JSON trees (they come out
of the Docs API response and through `JSON.parse(JSON.stringify(...))`),
so the merge is embedded on a JSON value type.  `deepMerge(base, overlay)`
mutates `base` in place in JS; the embedding returns the value `base`
holds after the call.  A property write whose receiver is a primitive is
a silent no-op in non-strict JS, which is how `mergeEntry` treats
non-object receivers. -/

inductive JValue : Type where
  | jnull : JValue
  | jbool : Bool → JValue
  | jnum : ℚ → JValue
  | jstr : String → JValue
  | jarr : List JValue → JValue
  | jobj : List (String × JValue) → JValue

/-- JS falsiness of a JSON value (`NaN` does not arise in a JSON tree). -/
def jsFalsy : JValue → Bool
  | .jnull => true
  | .jbool b => !b
  | .jnum q => q == 0
  | .jstr s => s == ""
  | .jarr _ => false
  | .jobj _ => false

/-- `typeof v === 'object' && v !== null && !Array.isArray(v)`. -/
def isPlainObj : JValue → Bool
  | .jobj _ => true
  | _ => false

/-- `obj[k]` on a JS object (keys are unique; first match). -/
def getKey : List (String × JValue) → String → Option JValue
  | [], _ => none
  | (k', v) :: rest, k => if k' = k then some v else getKey rest k

/-- `obj[k] = v`: overwrite in place, or append a new key. -/
def setKey : List (String × JValue) → String → JValue → List (String × JValue)
  | [], k, v => [(k, v)]
  | (k', v') :: rest, k, v =>
    if k' = k then (k', v) :: rest else (k', v') :: setKey rest k v

mutual

/-- `deepMerge(base, overlay)` from `src/lib/utils.js`: the value of
`base` after the in-place merge.  `for (const k in overlay)` iterates the
overlay's own keys in insertion order; a non-object overlay has no
enumerable keys here, leaving `base` unchanged. -/
def deepMerge : JValue → JValue → JValue
  | base, .jobj kvs => mergeEntries base kvs
  | base, _ => base
termination_by b o => sizeOf o
decreasing_by simp

def mergeEntries : JValue → List (String × JValue) → JValue
  | base, [] => base
  | base, (k, v) :: rest => mergeEntries (mergeEntry base k v) rest
termination_by b l => sizeOf l
decreasing_by
  · simp; omega
  · simp

/-- One iteration of the `for (const k in overlay)` loop body.  The
`isPlainObj v` test of the source is rendered as a match on `v` (the two
are equivalent: a value is a plain object exactly when it is `.jobj _`).
A property write on a primitive receiver is a silent no-op. -/
def mergeEntry : JValue → String → JValue → JValue
  | base, k, .jobj vl =>
    (match base with
      | .jobj bl =>
        let cur := (getKey bl k).getD .jnull
        let tgt := if jsFalsy cur then JValue.jobj [] else cur
        JValue.jobj (setKey bl k (deepMerge tgt (.jobj vl)))
      | b => b)
  | base, k, v =>
    (match base with
      | .jobj bl => JValue.jobj (setKey bl k v)
      | b => b)
termination_by b k v => sizeOf v + 1
decreasing_by simp

end

mutual

/-- `deepCopy` from `src/lib/utils.js`: `JSON.parse(JSON.stringify(obj))`,
a structural clone of a JSON tree. -/
def deepCopy : JValue → JValue
  | .jnull => .jnull
  | .jbool b => .jbool b
  | .jnum q => .jnum q
  | .jstr s => .jstr s
  | .jarr xs => .jarr (deepCopyArr xs)
  | .jobj kvs => .jobj (deepCopyObj kvs)

def deepCopyArr : List JValue → List JValue
  | [] => []
  | x :: xs => deepCopy x :: deepCopyArr xs

def deepCopyObj : List (String × JValue) → List (String × JValue)
  | [] => []
  | (k, v) :: rest => (k, deepCopy v) :: deepCopyObj rest

end

end Lib

namespace GDoc

/-! ## The document data model (§3 of the spec, Docs API JSON)

Each structure mirrors the JSON subtree the exporter reads.  Absent
fields are `none`.  Where the source only ever reads a subtree through a
falsy-default (`x || []`-style) access, the wrapper level is collapsed
and noted on the field. -/

structure Dimension where
  magnitude : Option ℚ
  unit : Option String
  deriving DecidableEq

structure RgbColor where
  red : Option ℚ
  green : Option ℚ
  blue : Option ℚ
  deriving DecidableEq

/-- `{ color: { rgbColor: {...} } }`. -/
structure ColorWrap where
  rgbColor : Option RgbColor
  deriving DecidableEq

structure OptColor where
  color : Option ColorWrap
  deriving DecidableEq

structure Link where
  url : Option String
  headingId : Option String
  deriving DecidableEq

structure WeightedFontFamily where
  fontFamily : Option String
  weight : Option Int
  deriving DecidableEq

structure TextStyle where
  bold : Option Bool
  italic : Option Bool
  underline : Option Bool
  strikethrough : Option Bool
  smallCaps : Option Bool
  baselineOffset : Option String
  fontSize : Option Dimension
  weightedFontFamily : Option WeightedFontFamily
  foregroundColor : Option OptColor
  backgroundColor : Option OptColor
  link : Option Link
  deriving DecidableEq

/-- The all-absent text style (JS `{}`). -/
def emptyTextStyle : TextStyle :=
  ⟨none, none, none, none, none, none, none, none, none, none, none⟩

structure Border where
  width : Option Dimension
  dashStyle : Option String
  color : Option OptColor
  deriving DecidableEq

structure Shading where
  backgroundColor : Option OptColor
  deriving DecidableEq

structure ParagraphStyle where
  namedStyleType : Option String
  headingId : Option String
  alignment : Option String
  direction : Option String
  lineSpacing : Option ℚ
  spaceAbove : Option Dimension
  spaceBelow : Option Dimension
  indentFirstLine : Option Dimension
  indentStart : Option Dimension
  indentEnd : Option Dimension
  borderTop : Option Border
  borderBottom : Option Border
  borderLeft : Option Border
  borderRight : Option Border
  shading : Option Shading
  pageBreakBefore : Option Bool
  keepLinesTogether : Option Bool
  keepWithNext : Option Bool
  avoidWidowAndOrphan : Option Bool
  deriving DecidableEq

/-- The all-absent paragraph style (JS `{}`; also stands in for an absent
`paragraph.paragraphStyle`, which the source defaults with `|| {}`). -/
def emptyParagraphStyle : ParagraphStyle :=
  ⟨none, none, none, none, none, none, none, none, none, none,
   none, none, none, none, none, none, none, none, none⟩

structure Bullet where
  listId : Option String
  nestingLevel : Option Int
  deriving DecidableEq

structure FootnoteRef where
  footnoteId : Option String
  footnoteNumber : Option String
  deriving DecidableEq

/-- A Docs equation node: the source only reads the suggestion-id arrays
(and stringifies whichever is present). -/
structure EquationNode where
  suggestedInsertionIds : Option (List String)
  suggestedDeletionIds : Option (List String)
  deriving DecidableEq

structure AutoTextNode where
  type : Option String
  deriving DecidableEq

structure TextRun where
  content : String
  textStyle : TextStyle
  deriving DecidableEq

/-- One entry of `paragraph.elements`; each JS element object carries
exactly one of these keys. -/
inductive ParaElement where
  | textRun : TextRun → ParaElement
  | inlineObjectElement : String → ParaElement
  | footnoteReference : FootnoteRef → ParaElement
  | equation : EquationNode → ParaElement
  | autoText : AutoTextNode → ParaElement
  deriving DecidableEq

structure Paragraph where
  paragraphStyle : ParagraphStyle
  bullet : Option Bullet
  elements : List ParaElement
  deriving DecidableEq

structure SectionStyle where
  columnSeparatorStyle : Option String
  /-- Only the length of `columnProperties` is read. -/
  columnProperties : Option (List Unit)
  deriving DecidableEq

structure TableCellStyle where
  backgroundColor : Option OptColor
  borderTop : Option Border
  borderBottom : Option Border
  borderLeft : Option Border
  borderRight : Option Border
  paddingTop : Option Dimension
  paddingBottom : Option Dimension
  paddingLeft : Option Dimension
  paddingRight : Option Dimension
  deriving DecidableEq

/-- A table cell.  `content` holds the cell's block elements; the source
renders only the paragraph ones (`if (c.paragraph) …`), so non-paragraph
entries are anonymous (`none`). -/
structure TableCell where
  tableCellStyle : Option TableCellStyle
  colspan : Option Int
  rowspan : Option Int
  content : List (Option Paragraph)
  deriving DecidableEq

structure TableRow where
  tableCellStyle : Option TableCellStyle
  /-- `row.tableCells || []`: absent ≡ empty. -/
  tableCells : List TableCell
  deriving DecidableEq

/-- One entry of `body.content`.  A table-of-contents carries its content
paragraphs (non-paragraph entries anonymous, skipped by the renderer);
a table carries its rows (`table.tableRows || []`: absent ≡ empty). -/
inductive Element where
  | paragraph : Paragraph → Element
  | sectionBreak : Option SectionStyle → Element
  | tableOfContents : List (Option Paragraph) → Element
  | horizontalRule : Element
  | table : List TableRow → Element
  deriving DecidableEq

structure Glyph where
  glyphSymbol : Option String
  glyphType : Option String
  deriving DecidableEq

structure ListProperties where
  nestingLevels : Option (List Glyph)
  deriving DecidableEq

structure ListDef where
  listProperties : Option ListProperties
  deriving DecidableEq

structure CropProperties where
  offsetLeft : Option ℚ
  offsetTop : Option ℚ
  offsetRight : Option ℚ
  offsetBottom : Option ℚ
  deriving DecidableEq

structure ImageProperties where
  contentUri : Option String
  cropProperties : Option CropProperties
  deriving DecidableEq

structure TransformNode where
  scaleX : Option ℚ
  scaleY : Option ℚ
  translateX : Option ℚ
  translateY : Option ℚ
  deriving DecidableEq

structure ObjSize where
  width : Option Dimension
  height : Option Dimension
  deriving DecidableEq

structure EmbeddedObject where
  imageProperties : Option ImageProperties
  size : Option ObjSize
  transform : Option TransformNode
  marginTop : Option Dimension
  marginBottom : Option Dimension
  marginLeft : Option Dimension
  marginRight : Option Dimension
  title : Option String
  description : Option String
  deriving DecidableEq

structure InlineObjectProperties where
  embeddedObject : Option EmbeddedObject
  deriving DecidableEq

structure InlineObject where
  inlineObjectProperties : Option InlineObjectProperties
  deriving DecidableEq

structure NamedStyle where
  namedStyleType : Option String
  paragraphStyle : Option ParagraphStyle
  textStyle : Option TextStyle
  deriving DecidableEq

/-- The document tree.  `body` is `doc.body?.content || []`;
`namedStyles` is `doc.namedStyles?.styles || []`; `lists` and
`inlineObjects` are the id-keyed maps (an absent map ≡ the empty one).
`extListItemCounts` models the `___listItemCounts` property that
`exportDocToHTML` injects into the document object before the body pass
(absent until then). -/
structure Document where
  body : List Element
  lists : List (String × ListDef)
  inlineObjects : List (String × InlineObject)
  namedStyles : List NamedStyle
  extListItemCounts : Option (String → Nat)

/-- JS object property lookup on an id-keyed map. -/
def lookupA {α : Type} : List (String × α) → String → Option α
  | [], _ => none
  | (k, v) :: rest, key => if k = key then some v else lookupA rest key

/-- Normalize a possibly-absent string through JS truthiness: `""` and
absent are both falsy. -/
def truthyStr : Option String → Option String
  | some s => if s = "" then none else some s
  | none => none

end GDoc

namespace Lib

open GDoc GD

/-! ## `src/lib/constants.js` -/

/-- Items with indent ≤ 40pt are level 0. -/
def INDENT_LEVEL_0_MAX : ℚ := 40

/-- Items with indent ≥ 60pt are level 1. -/
def INDENT_LEVEL_1_MIN : ℚ := 60

def NUMBERED_GLYPH_TYPES : List String :=
  ["DECIMAL", "ALPHA", "ROMAN", "UPPER_ALPHA", "UPPER_ROMAN",
   "LOWER_ALPHA", "LOWER_ROMAN"]

/-- `BULLET_STYLE_MAP` as a JS-object lookup. -/
def BULLET_STYLE_MAP : String → Option String := fun g =>
  if g = "●" then some "disc"
  else if g = "○" then some "circle"
  else if g = "■" then some "square"
  else if g = "-" then some "dash"
  else none

/-- `NUMBER_STYLE_MAP` as a JS-object lookup. -/
def NUMBER_STYLE_MAP : String → Option String := fun g =>
  if g = "DECIMAL" then some "decimal"
  else if g = "UPPER_ALPHA" then some "upper-alpha"
  else if g = "LOWER_ALPHA" then some "lower-alpha"
  else if g = "ALPHA" then some "lower-alpha"
  else if g = "UPPER_ROMAN" then some "upper-roman"
  else if g = "ROMAN" then some "upper-roman"
  else if g = "LOWER_ROMAN" then some "lower-roman"
  else none

/-! ## `src/lib/lists.js` -/

/-- `inferNestingLevel(bullet, paragraphStyle, prevLevel)`:
explicit `bullet.nestingLevel` wins; otherwise the indentation
heuristic over `paragraphStyle?.indentStart?.magnitude || 0`. -/
def inferNestingLevel (bullet : Option Bullet)
    (paragraphStyle : Option ParagraphStyle) (prevLevel : Int) : Int :=
  match bullet.bind (·.nestingLevel) with
  | some n => n
  | none =>
    let indentStart : ℚ :=
      (((paragraphStyle.bind (·.indentStart)).bind (·.magnitude)).getD 0)
    if indentStart ≤ INDENT_LEVEL_0_MAX then 0
    else if indentStart ≥ INDENT_LEVEL_1_MIN then 1
    else if prevLevel ≥ 0 then prevLevel else 0

/-- `detectBulletStyle(glyph)`: `!glyph?.glyphSymbol` (absent or `""`)
defaults to `disc`, as does an unmapped symbol. -/
def detectBulletStyle (glyph : Option Glyph) : String :=
  match glyph.bind (·.glyphSymbol) with
  | none => "disc"
  | some s => (BULLET_STYLE_MAP s).getD "disc"

/-- `detectNumberStyle(glyph)`. -/
def detectNumberStyle (glyph : Option Glyph) : String :=
  match glyph.bind (·.glyphType) with
  | none => "decimal"
  | some t => (NUMBER_STYLE_MAP t).getD "decimal"

/-- `isNumberedList(glyph, listId, nestingLevel, listItemCounts)`.
`listItemCounts` is the pre-pass item-count map (`none` when the caller
passed no map; a map returns 0 for missing keys, and the source's
`listItemCounts?.[key] || 1` turns both absences into 1). -/
def isNumberedList (glyph : Option Glyph) (listId : String)
    (nestingLevel : Int) (listItemCounts : Option (String → Nat)) : Bool :=
  let isBullet := (glyph.bind (·.glyphSymbol)).isSome
  if isBullet then false
  else
    let explicitlyNumbered :=
      match glyph.bind (·.glyphType) with
      | some t => NUMBERED_GLYPH_TYPES.contains t
      | none => false
    if explicitlyNumbered then true
    else if glyph.bind (·.glyphType) = some "GLYPH_TYPE_UNSPECIFIED" then
      let key := listId ++ ":" ++ intToString nestingLevel
      let itemCount : Nat :=
        match listItemCounts with
        | none => 1
        | some f => if f key = 0 then 1 else f key
      itemCount = 1
    else false

/-- The `_STYLE` suffix of the action string built by the library's
`detectListChange`: `numberStyle.toUpperCase()` with every dash replaced by an underscore,
prefixed by an underscore,
for non-default number styles, `_${bulletStyle.toUpperCase()}` for
non-default bullet styles, `''` otherwise. -/
def libStyleFlag (isNumbered : Bool) (bulletStyle numberStyle : String) :
    String :=
  if isNumbered then
    if numberStyle ≠ "decimal" then
      "_" ++ String.mk ((toUpperS numberStyle).data.map fun c =>
        if c = '-' then '_' else c)
    else ""
  else
    if bulletStyle ≠ "disc" then "_" ++ toUpperS bulletStyle else ""

/-- `detectListChange(paragraph, doc, listStack, isRTL, prevLevel,
prevListId)` from `src/lib/lists.js`.  The list stack is a Lean list
whose head is the top of the JS array (JS `push`/`pop` work at the array
end; JS index `i` from the bottom is Lean index `length - 1 - i` from
the head).  Returns the pipe-separated action string, or `none` for the
JS `null`. -/
def detectListChange (paragraph : Paragraph) (doc : Document)
    (listStack : List String) (isRTL : Bool) (prevLevel : Int)
    (prevListId : Option String) : Option String :=
  match paragraph.bullet with
  | none => none
  | some bullet =>
    match bullet.listId with
    | none => none  -- `doc.lists?.[undefined]` is undefined, so `null`
    | some listId =>
      let nestingLevel :=
        inferNestingLevel (some bullet) (some paragraph.paragraphStyle)
          prevLevel
      match (lookupA doc.lists listId).bind
          (fun d => d.listProperties.bind (·.nestingLevels)) with
      | none => none
      | some levels =>
        match (if 0 ≤ nestingLevel
               then levels.get? nestingLevel.toNat else none) with
        | none => none  -- `if (!glyph) return null`
        | some glyph =>
          let isNumbered :=
            isNumberedList (some glyph) listId nestingLevel
              doc.extListItemCounts
          let bulletStyle :=
            if isNumbered then "" else detectBulletStyle (some glyph)
          let numberStyle :=
            if isNumbered then detectNumberStyle (some glyph) else ""
          let startType := if isNumbered then "OL" else "UL"
          let rtlFlag := if isRTL then "_RTL" else ""
          let styleFlag := libStyleFlag isNumbered bulletStyle numberStyle
          let startAction :=
            "start" ++ startType ++ rtlFlag ++ styleFlag ++ ":" ++
              intToString nestingLevel
          if listStack.length = 0 then some startAction
          else if nestingLevel > prevLevel then some startAction
          else if nestingLevel < prevLevel then
            let actions :=
              List.replicate (prevLevel - nestingLevel).toNat "endLIST"
            let stackIndexAfterClosing : Int :=
              (listStack.length : Int) - (prevLevel - nestingLevel)
            let actions :=
              if 0 < stackIndexAfterClosing then
                let parentType :=
                  (listStack.get? (prevLevel - nestingLevel).toNat).map
                    (fun f => (jsSplit f ':').headD "")
                let wantType :=
                  toLowerS startType ++ (if isRTL then "_rtl" else "") ++
                    toLowerS styleFlag
                if parentType ≠ some wantType then
                  actions ++
                    ["end" ++
                       (match parentType with
                        | some p => if p = "" then "UL" else toUpperS p
                        | none => "UL"),
                     startAction]
                else actions
              else actions
            some (String.intercalate "|" actions)
          else
            let currentType :=
              listStack.head?.map (fun f => (jsSplit f ':').headD "")
            let wantType :=
              toLowerS startType ++ (if isRTL then "_rtl" else "") ++
                toLowerS styleFlag
            if currentType ≠ some wantType then
              some ("end" ++
                (match currentType with
                 | some p => if p = "" then "UL" else toUpperS p
                 | none => "UL") ++ "|" ++ startAction)
            else none

/-- The inline `list-style-type` override chosen by the library's
`handleListState` from the `_STYLE` flags of a `start…` action. -/
def libListStyleAttr (typeInfo : String) : String :=
  if hasSub "_DASH" typeInfo then
    " style=\"list-style-type: '− '\""
  else if hasSub "_CIRCLE" typeInfo then
    " style=\"list-style-type: circle\""
  else if hasSub "_SQUARE" typeInfo then
    " style=\"list-style-type: square\""
  else if hasSub "_UPPER_ALPHA" typeInfo then
    " style=\"list-style-type: upper-alpha\""
  else if hasSub "_LOWER_ALPHA" typeInfo then
    " style=\"list-style-type: lower-alpha\""
  else if hasSub "_UPPER_ROMAN" typeInfo then
    " style=\"list-style-type: upper-roman\""
  else if hasSub "_LOWER_ROMAN" typeInfo then
    " style=\"list-style-type: lower-roman\""
  else ""

/-- One iteration of the action loop of `handleListState` in
`src/lib/lists.js`: `(stack, lines emitted by this action)`.  A `pop`
on an empty stack yields `undefined`, which the `if (!top) continue`
guard skips without emitting anything. -/
def libDoAction (st : List String) (action : String) :
    List String × List String :=
  if sw "start" action then
    let parts := jsSplit action ':'
    let typeInfo := replaceOnce (parts.headD "") "start" ""
    let level :=
      match parts.get? 1 with
      | some l => if l = "" then "0" else l
      | none => "0"
    let listStyle := libListStyleAttr typeInfo
    let frame := toLowerS typeInfo ++ ":" ++ level
    if hasSub "UL_RTL" typeInfo ||
        (hasSub "UL" typeInfo && hasSub "_RTL" typeInfo) then
      (frame :: st, ["<ul dir=\"rtl\"" ++ listStyle ++ ">"])
    else if hasSub "OL_RTL" typeInfo then
      (frame :: st, ["<ol dir=\"rtl\"" ++ listStyle ++ ">"])
    else if hasSub "UL" typeInfo then
      (frame :: st, ["<ul" ++ listStyle ++ ">"])
    else
      (frame :: st, ["<ol" ++ listStyle ++ ">"])
  else if action = "endLIST" then
    match st with
    | [] => ([], [])
    | top :: rest =>
      if top = "" then (rest, [])
      else
        let listType := (jsSplit top ':').headD ""
        (rest, [if sw "u" listType then "</ul>" else "</ol>", "</li>"])
  else if sw "end" action then
    match st with
    | [] => ([], [])
    | top :: rest =>
      if top = "" then (rest, [])
      else
        let listType := (jsSplit top ':').headD ""
        (rest, [if sw "u" listType then "</ul>" else "</ol>"])
  else (st, [])

/-- The action-loop step: thread the stack, accumulate the emitted
lines. -/
def libStep (acc : List String × List String) (a : String) :
    List String × List String :=
  let next := libDoAction acc.1 a
  (next.1, acc.2 ++ next.2)

/-- `handleListState(listChange, listStack, htmlLines)` from
`src/lib/lists.js`: returns the final stack and the lines pushed onto
`htmlLines`.  `if (!listChange) return` skips null/undefined (`none`)
and the empty string. -/
def handleListState (listChange : Option String) (listStack : List String) :
    List String × List String :=
  match listChange with
  | none => (listStack, [])
  | some lc =>
    if lc = "" then (listStack, [])
    else (jsSplit lc '|').foldl libStep (listStack, [])

/-- `closeAllLists(listStack, htmlLines)` from `src/lib/lists.js`
(the null-guard on the arguments is the callers' concern here): pops
every frame, emitting `</ul>` or `</ol>` by the frame's first letter. -/
def closeAllLists : List String → List String
  | [] => []
  | top :: rest =>
    (if sw "u" top then "</ul>" else "</ol>") :: closeAllLists rest

end Lib

namespace Export

open GDoc GD

/-! ## The main exporter script — utilities

These embed the `UTILS` section of the exporter script.  Its `escapeHtml`
has the same four-replacement body as the library's (without the null
guard: it is only ever called on strings). -/

def escapeHtml (s : String) : String := String.mk (Lib.escapeHtmlChars s.data)

/-- `ptToPx(pts)`: `Math.round(pts * 1.3333)`. -/
def ptToPx (pts : ℚ) : Int := jsRound (pts * (13333 / 10000))

/-- `rgbToHex(r, g, b)` of the exporter script (no clamping, unlike the
library variant): channel × 255, rounded, two hex digits each. -/
def rgbToHex (r g b : ℚ) : String :=
  "#" ++ padStart2 (hexString (jsRound (r * 255)))
      ++ padStart2 (hexString (jsRound (g * 255)))
      ++ padStart2 (hexString (jsRound (b * 255)))

/-- The `?.color?.rgbColor` chain shared by several renderers. -/
def rgbOf (oc : Option OptColor) : Option RgbColor :=
  (oc.bind (·.color)).bind (·.rgbColor)

/-- `borderStyleMap` of the exporter script. -/
def borderStyleMap : String → Option String := fun s =>
  if s = "SOLID" then some "solid"
  else if s = "DOTTED" then some "dotted"
  else if s = "DASHED" then some "dashed"
  else if s = "DOUBLE" then some "double"
  else none

/-- `alignmentMapLTR` of the exporter script. -/
def alignmentMapLTR : String → Option String := fun s =>
  if s = "START" then some "left"
  else if s = "CENTER" then some "center"
  else if s = "END" then some "right"
  else if s = "JUSTIFIED" then some "justify"
  else none

/-- `formatBorder(side, border)` of the exporter script: empty unless the
border carries a non-zero width magnitude. -/
def formatBorder (side : String) (border : Option Border) : String :=
  match border with
  | none => ""
  | some b =>
    match b.width.bind (·.magnitude) with
    | none => ""
    | some m =>
      if m = 0 then ""  -- `!border.width.magnitude`
      else
        let width := ptToPx m
        let style := (b.dashStyle.bind borderStyleMap).getD "solid"
        let color :=
          match rgbOf b.color with
          | some rgb =>
            rgbToHex (rgb.red.getD 0) (rgb.green.getD 0) (rgb.blue.getD 0)
          | none => "#000000"
        "border-" ++ side ++ ":" ++ intToString width ++ "px " ++ style ++
          " " ++ color ++ ";"

/-- `x?.magnitude` as a truthy pixel value: `none` when the dimension or
its magnitude is absent or zero, else the `ptToPx` of it. -/
def magPx (d : Option Dimension) : Option Int :=
  match d.bind (·.magnitude) with
  | some m => if m = 0 then none else some (ptToPx m)
  | none => none

/-! ## `deepMerge` specialised to the typed style records

The exporter merges style dictionaries with the untyped recursive
`deepMerge` of its `UTILS` section (same body as the library's, verified
above on JSON trees).  On the fixed Docs style schema that merge is the
field-wise rule below: an overlay scalar overrides, an overlay object
merges recursively (into `{}` when the base field is absent), an absent
overlay field keeps the base.  `deepCopy` is the identity on these
immutable records. -/

def mergeOpt {α : Type} (b o : Option α) : Option α :=
  match o with
  | some x => some x
  | none => b

def mergeNested {α : Type} (m : α → α → α) (b o : Option α) : Option α :=
  match o with
  | none => b
  | some ov =>
    some (match b with
          | some bv => m bv ov
          | none => ov)

def mergeDimension (b o : Dimension) : Dimension :=
  ⟨mergeOpt b.magnitude o.magnitude, mergeOpt b.unit o.unit⟩

def mergeRgbColor (b o : RgbColor) : RgbColor :=
  ⟨mergeOpt b.red o.red, mergeOpt b.green o.green, mergeOpt b.blue o.blue⟩

def mergeColorWrap (b o : ColorWrap) : ColorWrap :=
  ⟨mergeNested mergeRgbColor b.rgbColor o.rgbColor⟩

def mergeOptColor (b o : OptColor) : OptColor :=
  ⟨mergeNested mergeColorWrap b.color o.color⟩

def mergeLink (b o : Link) : Link :=
  ⟨mergeOpt b.url o.url, mergeOpt b.headingId o.headingId⟩

def mergeWff (b o : WeightedFontFamily) : WeightedFontFamily :=
  ⟨mergeOpt b.fontFamily o.fontFamily, mergeOpt b.weight o.weight⟩

def mergeBorder (b o : Border) : Border :=
  ⟨mergeNested mergeDimension b.width o.width,
   mergeOpt b.dashStyle o.dashStyle,
   mergeNested mergeOptColor b.color o.color⟩

def mergeShading (b o : Shading) : Shading :=
  ⟨mergeNested mergeOptColor b.backgroundColor o.backgroundColor⟩

def mergeTextStyle (b o : TextStyle) : TextStyle :=
  ⟨mergeOpt b.bold o.bold, mergeOpt b.italic o.italic,
   mergeOpt b.underline o.underline,
   mergeOpt b.strikethrough o.strikethrough,
   mergeOpt b.smallCaps o.smallCaps,
   mergeOpt b.baselineOffset o.baselineOffset,
   mergeNested mergeDimension b.fontSize o.fontSize,
   mergeNested mergeWff b.weightedFontFamily o.weightedFontFamily,
   mergeNested mergeOptColor b.foregroundColor o.foregroundColor,
   mergeNested mergeOptColor b.backgroundColor o.backgroundColor,
   mergeNested mergeLink b.link o.link⟩

def mergeParagraphStyle (b o : ParagraphStyle) : ParagraphStyle :=
  ⟨mergeOpt b.namedStyleType o.namedStyleType,
   mergeOpt b.headingId o.headingId,
   mergeOpt b.alignment o.alignment,
   mergeOpt b.direction o.direction,
   mergeOpt b.lineSpacing o.lineSpacing,
   mergeNested mergeDimension b.spaceAbove o.spaceAbove,
   mergeNested mergeDimension b.spaceBelow o.spaceBelow,
   mergeNested mergeDimension b.indentFirstLine o.indentFirstLine,
   mergeNested mergeDimension b.indentStart o.indentStart,
   mergeNested mergeDimension b.indentEnd o.indentEnd,
   mergeNested mergeBorder b.borderTop o.borderTop,
   mergeNested mergeBorder b.borderBottom o.borderBottom,
   mergeNested mergeBorder b.borderLeft o.borderLeft,
   mergeNested mergeBorder b.borderRight o.borderRight,
   mergeNested mergeShading b.shading o.shading,
   mergeOpt b.pageBreakBefore o.pageBreakBefore,
   mergeOpt b.keepLinesTogether o.keepLinesTogether,
   mergeOpt b.keepWithNext o.keepWithNext,
   mergeOpt b.avoidWidowAndOrphan o.avoidWidowAndOrphan⟩

/-! ## `buildNamedStylesMap` -/

/-- JS object assignment `map[k] = v` on an assoc list. -/
def upsertA {α : Type} : List (String × α) → String → α → List (String × α)
  | [], k, v => [(k, v)]
  | (k', v') :: rest, k, v =>
    if k' = k then (k', v) :: rest else (k', v') :: upsertA rest k v

/-- `buildNamedStylesMap(doc)`: named-style id → (paragraph style, text
style), defaulted with `|| {}`. -/
def buildNamedStylesMap (doc : Document) :
    List (String × (ParagraphStyle × TextStyle)) :=
  doc.namedStyles.foldl
    (fun map s =>
      upsertA map (s.namedStyleType.getD "undefined")
        (s.paragraphStyle.getD emptyParagraphStyle,
         s.textStyle.getD emptyTextStyle))
    []

/-! ## `mergeTextRuns` and `isSameTextStyle` (exporter script version) -/

/-- JS truthiness of an optional boolean style flag. -/
def truthyB (o : Option Bool) : Bool := o == some true

/-- `x || null` on a boolean style field: `false` and absent coincide. -/
def normB (o : Option Bool) : Option Bool :=
  if o = some false then none else o

/-- `isSameTextStyle(a, b)` of the exporter script: compares the eleven
tracked fields through `JSON.stringify(x[f] || null)`; on this typed
schema that is structural equality after identifying falsy scalars
(`false`, `""`) with absence (object-valued fields are always truthy). -/
def isSameTextStyle (a b : TextStyle) : Bool :=
  normB a.bold == normB b.bold &&
  normB a.italic == normB b.italic &&
  normB a.underline == normB b.underline &&
  normB a.strikethrough == normB b.strikethrough &&
  truthyStr a.baselineOffset == truthyStr b.baselineOffset &&
  a.fontSize == b.fontSize &&
  a.weightedFontFamily == b.weightedFontFamily &&
  a.foregroundColor == b.foregroundColor &&
  a.backgroundColor == b.backgroundColor &&
  a.link == b.link &&
  normB a.smallCaps == normB b.smallCaps

/-- One step of the exporter script's `mergeTextRuns` loop.  The state is
the output list in reverse (its head is the most recently pushed element)
together with the `last` pointer: `true` when `last` is non-null, in
which case it aliases the head of the reversed output, always a text run.
A mergeable text run is appended to that head's content in place;
`deepCopy` on the typed style record is the identity. -/
def mergeStep : List ParaElement × Bool → ParaElement →
    List ParaElement × Bool
  | (acc, _), .inlineObjectElement o => (.inlineObjectElement o :: acc, false)
  | (acc, _), .footnoteReference f => (.footnoteReference f :: acc, false)
  | (acc, _), .equation e => (.equation e :: acc, false)
  | (acc, _), .autoText a => (.autoText a :: acc, false)
  | (acc, lastRun), .textRun tr =>
    if lastRun then
      match acc with
      | .textRun tr0 :: rest =>
        if isSameTextStyle tr0.textStyle tr.textStyle then
          (.textRun ⟨tr0.content ++ tr.content, tr0.textStyle⟩ :: rest, true)
        else (.textRun tr :: acc, true)
      | _ => (.textRun tr :: acc, true)
    else (.textRun tr :: acc, true)

/-- `mergeTextRuns(elements)` of the exporter script: consecutive text
runs with the same tracked style merge, any other element kind resets
the `last` pointer. -/
def mergeTextRuns (elements : List ParaElement) : List ParaElement :=
  (elements.foldl mergeStep ([], false)).1.reverse

/-! ## Special run renderers -/

/-- `renderFootnoteReference(footnoteRef, doc)`.  (An absent footnote id
is rendered as empty here; the Docs API always populates it.) -/
def renderFootnoteReference (fr : FootnoteRef) : String :=
  let fid := fr.footnoteId.getD ""
  let footnoteNumber := (truthyStr fr.footnoteNumber).getD "?"
  "<sup><a href=\"#footnote-" ++ escapeHtml fid ++
    "\" id=\"footnote-ref-" ++ escapeHtml fid ++ "\">[" ++
    footnoteNumber ++ "]</a></sup>"

/-- `renderEquation(equation)`: stringifies whichever suggestion-id array
is present (JS arrays are truthy even when empty and stringify as their
comma-joined elements). -/
def renderEquation (e : EquationNode) : String :=
  let content :=
    match e.suggestedInsertionIds with
    | some l => l
    | none =>
      match e.suggestedDeletionIds with
      | some l => l
      | none => []
  "<code class=\"equation\">" ++
    escapeHtml (String.intercalate "," content) ++ "</code>"

/-- `renderAutoText(autoText)`. -/
def renderAutoText (a : AutoTextNode) : String :=
  if a.type = some "PAGE_NUMBER" then
    "<span class=\"page-number\">[Page #]</span>"
  else if a.type = some "PAGE_COUNT" then
    "<span class=\"page-count\">[Total Pages]</span>"
  else ""

/-- `renderInlineObject(objectId, doc, …)`: the `<img …>` markup.  Byte
fetching and the file write are I/O side channels; with
`EMBED_IMAGES_AS_BASE64 = false` the `src` is
`path.relative(outputDir, imagesDir/image_<id>.png) = images/image_<id>.png`. -/
def renderInlineObject (objectId : String) (doc : Document) : String :=
  match (lookupA doc.inlineObjects objectId).bind
      (fun io => io.inlineObjectProperties.bind (·.embeddedObject)) with
  | none => ""
  | some embedded =>
    match embedded.imageProperties with
    | none => ""
    | some imageProperties =>
      let scaleX : ℚ :=
        match embedded.transform.bind (·.scaleX) with
        | some q => if q = 0 then 1 else q
        | none => 1
      let scaleY : ℚ :=
        match embedded.transform.bind (·.scaleY) with
        | some q => if q = 0 then 1 else q
        | none => 1
      let translateX : ℚ := (embedded.transform.bind (·.translateX)).getD 0
      let translateY : ℚ := (embedded.transform.bind (·.translateY)).getD 0
      let imgSrc := "images/image_" ++ objectId ++ ".png"
      let sizeStyle :=
        match embedded.size with
        | some sz =>
          match sz.width.bind (·.magnitude), sz.height.bind (·.magnitude) with
          | some wm, some hm =>
            if wm ≠ 0 ∧ hm ≠ 0 then
              "max-width:" ++
                intToString (jsRound (wm * (13333 / 10000) * scaleX)) ++
                "px; max-height:" ++
                intToString (jsRound (hm * (13333 / 10000) * scaleY)) ++
                "px;"
            else ""
          | _, _ => ""
        | none => ""
      let cropStyle :=
        match imageProperties.cropProperties with
        | some cp =>
          if cp.offsetLeft.getD 0 ≠ 0 ∨ cp.offsetTop.getD 0 ≠ 0 ∨
              cp.offsetRight.getD 0 ≠ 0 ∨ cp.offsetBottom.getD 0 ≠ 0 then
            let left := cp.offsetLeft.getD 0 * 100
            let top := cp.offsetTop.getD 0 * 100
            "object-fit:cover;" ++ "object-position:" ++ qToString (-left) ++
              "% " ++ qToString (-top) ++ "%;"
          else ""
        | none => ""
      let translateStyle :=
        if translateX ≠ 0 ∨ translateY ≠ 0 then
          "transform:translate(" ++
            intToString (jsRound (translateX * (13333 / 10000))) ++ "px, " ++
            intToString (jsRound (translateY * (13333 / 10000))) ++ "px);"
        else ""
      let marginStyle :=
        (match magPx embedded.marginTop with
         | some px => "margin-top:" ++ intToString px ++ "px;"
         | none => "") ++
        (match magPx embedded.marginBottom with
         | some px => "margin-bottom:" ++ intToString px ++ "px;"
         | none => "") ++
        (match magPx embedded.marginLeft with
         | some px => "margin-left:" ++ intToString px ++ "px;"
         | none => "") ++
        (match magPx embedded.marginRight with
         | some px => "margin-right:" ++ intToString px ++ "px;"
         | none => "")
      let style := sizeStyle ++ cropStyle ++ translateStyle ++ marginStyle
      let alt :=
        match truthyStr embedded.title with
        | some t => t
        | none => (truthyStr embedded.description).getD ""
      "<img src=\"" ++ escapeHtml imgSrc ++ "\" alt=\"" ++ escapeHtml alt ++
        "\" style=\"" ++ style ++ "\" />"

/-! ## `renderTextRun` -/

/-- The vertical-tab character (soft line break, Shift+Enter). -/
def vtab : Char := Char.ofNat 11

/-- Strip one trailing newline (end-of-paragraph marker). -/
def stripTrailingNewline (l : List Char) : List Char :=
  match l.reverse with
  | c :: rest => if c = Char.ofNat 10 then rest.reverse else l
  | [] => l

/-- `renderTextRun(textRun, usedFonts, baseStyle)` minus the `usedFonts`
side channel.  `deepCopy(baseStyle)` then `deepMerge(…, textRun.textStyle)`
is the typed merge. -/
def renderTextRun (textRun : TextRun) (baseStyle : TextStyle) : String :=
  let finalStyle := mergeTextStyle baseStyle textRun.textStyle
  let content := String.mk (stripTrailingNewline textRun.content.data)
  let content :=
    String.mk (content.data.flatMap fun c =>
      if c = vtab then "__LINEBREAK__".data else [c])
  let cssClasses :=
    (if truthyB finalStyle.bold then ["bold"] else []) ++
    (if truthyB finalStyle.italic then ["italic"] else []) ++
    (if truthyB finalStyle.underline then ["underline"] else []) ++
    (if truthyB finalStyle.strikethrough then ["strikethrough"] else []) ++
    (if finalStyle.baselineOffset = some "SUPERSCRIPT" then ["superscript"]
     else if finalStyle.baselineOffset = some "SUBSCRIPT" then ["subscript"]
     else [])
  let inlineStyle :=
    (if truthyB finalStyle.smallCaps then "font-variant:small-caps;" else "") ++
    (match finalStyle.fontSize.bind (·.magnitude) with
     | some m => if m ≠ 0 then "font-size:" ++ qToString m ++ "pt;" else ""
     | none => "") ++
    (match finalStyle.weightedFontFamily with
     | some wff =>
       match truthyStr wff.fontFamily with
       | some fam =>
         let weight : Int :=
           match wff.weight with
           | some w => if w = 0 then 400 else w
           | none => 400
         "font-family:'" ++ fam ++ "',sans-serif;" ++
           (if weight ≠ 400 then
             "font-weight:" ++ intToString weight ++ ";" else "")
       | none => ""
     | none => "") ++
    (match rgbOf finalStyle.foregroundColor with
     | some rgb =>
       "color:" ++
         rgbToHex (rgb.red.getD 0) (rgb.green.getD 0) (rgb.blue.getD 0) ++ ";"
     | none => "") ++
    (match rgbOf finalStyle.backgroundColor with
     | some rgb =>
       "background-color:" ++
         rgbToHex (rgb.red.getD 0) (rgb.green.getD 0) (rgb.blue.getD 0) ++ ";"
     | none => "")
  let classAttr :=
    if cssClasses.length > 0 then
      " class=\"" ++ String.intercalate " " cssClasses ++ "\""
    else ""
  let styleAttr := if inlineStyle ≠ "" then " style=\"" ++ inlineStyle ++ "\"" else ""
  let linkHref :=
    match finalStyle.link with
    | some l =>
      match truthyStr l.headingId with
      | some h => "#heading-" ++ escapeHtml h
      | none => (truthyStr l.url).getD ""
    | none => ""
  let (openTag, closeTag) :=
    if finalStyle.link.isSome ∧ linkHref ≠ "" then
      ("<a href=\"" ++ escapeHtml linkHref ++ "\"" ++ classAttr ++ styleAttr
        ++ ">", "</a>")
    else ("<span" ++ classAttr ++ styleAttr ++ ">", "</span>")
  let escapedContent :=
    replaceAll (escapeHtml content) "__LINEBREAK__" "<br>"
  openTag ++ escapedContent ++ closeTag

end Export

namespace Export

open GDoc GD

/-! ## Alignment resolution (RTL flip) -/

/-- The alignment-flip step of `renderParagraph`: when the paragraph is
RTL and the effective alignment is `START` or `END`, swap them. -/
def rtlFlipAlign (isRTL : Bool) (align : Option String) : Option String :=
  if isRTL && (align == some "START" || align == some "END") then
    if align == some "START" then some "END" else some "START"
  else align

/-- The CSS `text-align` value `renderParagraph` emits: the flipped
alignment looked up in `alignmentMapLTR` (`if (align && alignmentMapLTR[align])`:
an absent, empty or unmapped alignment emits nothing). -/
def cssTextAlign (isRTL : Bool) (align : Option String) : Option String :=
  match rtlFlipAlign isRTL align with
  | some a => alignmentMapLTR a
  | none => none

/-! ## Heading-tag resolution -/

/-- JS `parseInt(s, 10)`: optional leading whitespace and sign, then a
non-empty digit run; `none` for `NaN`. -/
def parseIntJS (s : String) : Option Int :=
  let l := s.data.dropWhile (·.isWhitespace)
  let core : List Char → Option Nat := fun cs =>
    let ds := cs.takeWhile (·.isDigit)
    if ds.isEmpty then none
    else some (ds.foldl (fun a c => a * 10 + (c.toNat - 48)) 0)
  match l with
  | '-' :: rest => (core rest).map (fun n => -(n : Int))
  | '+' :: rest => (core rest).map (fun n => (n : Int))
  | rest => (core rest).map (fun n => (n : Int))

/-- The tag chosen by `renderParagraph` from the named style type:
`TITLE` → `h1 class="title"`, `SUBTITLE` → `h2 class="subtitle"`,
`HEADING_n` (1 ≤ n ≤ 6) → `hn`, else `p`. -/
def tagOf (namedType : String) : String :=
  if namedType = "TITLE" then "h1 class=\"title\""
  else if namedType = "SUBTITLE" then "h2 class=\"subtitle\""
  else if sw "HEADING_" namedType then
    match parseIntJS (replaceOnce namedType "HEADING_" "") with
    | some lv => if 1 ≤ lv ∧ lv ≤ 6 then "h" ++ intToString lv else "p"
    | none => "p"
  else "p"

/-- The tail of `renderParagraph`: if `inlineStyle` is non-empty, splice
` style="…"` in before the first `>` of the assembled markup (skipped
when `indexOf('>')` is not positive). -/
def insertInlineStyle (html inlineStyle : String) : String :=
  if inlineStyle = "" then html
  else
    match html.data.findIdx? (· = '>') with
    | some i =>
      if 0 < i then
        String.mk (html.data.take i ++
          (" style=\"" ++ inlineStyle ++ "\"").data ++ html.data.drop i)
      else html
    | none => html

/-! ## The inline list engine of the exporter script -/

/-- The ordered/unordered decision block inlined in the exporter
script's `detectListChange` (its comment block and `isBullet` /
`explicitlyNumbered` / `GLYPH_TYPE_UNSPECIFIED` chain): a present glyph
symbol means bullets; an explicit numbered glyph type means numbers; an
unspecified glyph type falls back to the pre-pass item count at
`listId:nestingLevel` (missing count → 1), numbered exactly when that
count is 1; anything else means bullets. -/
def isNumberedOf (glyph : Option Glyph) (listId : String)
    (nestingLevel : Int) (counts : Option (String → Nat)) : Bool :=
  let isBullet := (glyph.bind (·.glyphSymbol)).isSome
  let explicitlyNumbered :=
    match glyph.bind (·.glyphType) with
    | some t =>
      (["DECIMAL", "ALPHA", "ROMAN", "UPPER_ALPHA", "UPPER_ROMAN",
        "LOWER_ALPHA", "LOWER_ROMAN"]).contains t
    | none => false
  if isBullet then false
  else if explicitlyNumbered then true
  else if glyph.bind (·.glyphType) = some "GLYPH_TYPE_UNSPECIFIED" then
    let key := listId ++ ":" ++ intToString nestingLevel
    let itemCount : Nat :=
      match counts with
      | none => 1
      | some f => if f key = 0 then 1 else f key
    itemCount = 1
  else false

/-- `detectListChange(bullet, doc, listStack, isRTL, prevLevel,
prevListId)` of the exporter script.  The Lean list's head is the top of
the JS stack array; `listStack[stackIndexAfterClosing - 1]` (a from-the-
bottom index) is `listStack.get? (prevLevel - nestingLevel)` from the
head.  Returns the pipe-joined action string (`none` for `null`). -/
def detectListChange (bullet : Bullet) (doc : Document)
    (listStack : List String) (isRTL : Bool) (prevLevel : Int)
    (prevListId : Option String) : Option String :=
  match bullet.listId with
  | none => none  -- `doc.lists?.[undefined]` is undefined: `return null`
  | some listId =>
    let nestingLevel := bullet.nestingLevel.getD 0  -- `bullet.nestingLevel||0`
    match (lookupA doc.lists listId).bind
        (fun d => d.listProperties.bind (·.nestingLevels)) with
    | none => none
    | some levels =>
      -- no `!glyph` guard here: an out-of-range level flows through the
      -- `glyph?.…` chains below as undefined (a bullet list results)
      let glyph : Option Glyph :=
        if 0 ≤ nestingLevel then levels.get? nestingLevel.toNat else none
      let isNumbered : Bool :=
        isNumberedOf glyph listId nestingLevel doc.extListItemCounts
      let startType := if isNumbered then "OL" else "UL"
      let rtlFlag := if isRTL then "_RTL" else ""
      let startAction :=
        "start" ++ startType ++ rtlFlag ++ ":" ++ intToString nestingLevel
      let idChanged : Bool :=
        match truthyStr prevListId with
        | some p => p != listId  -- `prevListId && prevListId !== listId`
        | none => false
      if listStack.length = 0 then some startAction
      else if nestingLevel > prevLevel then some startAction
      else if nestingLevel < prevLevel then
        let actions :=
          List.replicate (prevLevel - nestingLevel).toNat "endLIST"
        let stackIndexAfterClosing : Int :=
          (listStack.length : Int) - (prevLevel - nestingLevel)
        let actions :=
          if 0 < stackIndexAfterClosing then
            let parentType :=
              (listStack.get? (prevLevel - nestingLevel).toNat).map
                (fun f => (jsSplit f ':').headD "")
            let wantType :=
              toLowerS startType ++ (if isRTL then "_rtl" else "")
            if parentType != some wantType || idChanged then
              actions ++
                ["end" ++
                   (match parentType with
                    | some p => if p = "" then "UL" else toUpperS p
                    | none => "UL"),
                 startAction]
            else actions
          else actions
        some (String.intercalate "|" actions)
      else
        let currentType :=
          listStack.head?.map (fun f => (jsSplit f ':').headD "")
        let wantType := toLowerS startType ++ (if isRTL then "_rtl" else "")
        if currentType != some wantType || idChanged then
          some ("end" ++
            (match currentType with
             | some p => if p = "" then "UL" else toUpperS p
             | none => "UL") ++ "|" ++ startAction)
        else none

/-- One iteration of the action loop of the exporter script's
`handleListState`: `(new stack, lines emitted)`. -/
def expDoAction (st : List String) (action : String) :
    List String × List String :=
  if sw "start" action then
    let parts := jsSplit action ':'
    let typeInfo := replaceOnce (parts.headD "") "start" ""
    let level :=
      match parts.get? 1 with
      | some l => if l = "" then "0" else l  -- `parts[1] || '0'`
      | none => "0"
    if hasSub "UL_RTL" typeInfo then
      (("ul_rtl:" ++ level) :: st, ["<ul dir=\"rtl\">"])
    else if hasSub "OL_RTL" typeInfo then
      (("ol_rtl:" ++ level) :: st, ["<ol dir=\"rtl\">"])
    else if hasSub "UL" typeInfo then
      (("ul:" ++ level) :: st, ["<ul>"])
    else
      (("ol:" ++ level) :: st, ["<ol>"])
  else if action = "endLIST" then
    match st with
    | [] => ([], [])  -- `pop()` is undefined: `if (!top) continue`
    | top :: rest =>
      if top = "" then (rest, [])
      else
        (rest,
         [if sw "u" ((jsSplit top ':').headD "") then "</ul>" else "</ol>",
          "</li>"])
  else if sw "end" action then
    match st with
    | [] => ([], [])
    | top :: rest =>
      if top = "" then (rest, [])
      else
        (rest,
         [if sw "u" ((jsSplit top ':').headD "") then "</ul>" else "</ol>"])
  else (st, [])

/-- `handleListState(listChange, listStack, htmlLines)` of the exporter
script (its caller guards `if (listChange)`); returns the final stack and
the pushed lines. -/
def expStep (acc : List String × List String) (a : String) :
    List String × List String :=
  let next := expDoAction acc.1 a
  (next.1, acc.2 ++ next.2)

def handleListState (listChange : String) (listStack : List String) :
    List String × List String :=
  (jsSplit listChange '|').foldl expStep (listStack, [])

/-- `closeAllLists(listStack, htmlLines)` of the exporter script: pop
until empty, closing by the frame's first letter. -/
def closeAllLists : List String → List String
  | [] => []
  | top :: rest =>
    (if sw "u" top then "</ul>" else "</ol>") :: closeAllLists rest

/-! ## `renderParagraph` -/

/-- `renderParagraph(paragraph, doc, …)` of the exporter script, minus
the `usedFonts`/auth/paths side channels.  `prevLevel` and `prevListId`
stand for the `___prevNestingLevel`/`___prevListId` properties the body
loop stuffs onto the paragraph.  Returns `(html, listChange)`. -/
def renderParagraph (paragraph : Paragraph) (doc : Document)
    (listStack : List String) (prevLevel : Int) (prevListId : Option String)
    (namedStylesMap : List (String × (ParagraphStyle × TextStyle))) :
    String × Option String :=
  let style := paragraph.paragraphStyle
  let namedType := (truthyStr style.namedStyleType).getD "NORMAL_TEXT"
  let (basePS, baseTS) :=
    match lookupA namedStylesMap namedType with
    | some pr => pr
    | none => (emptyParagraphStyle, emptyTextStyle)
  let mergedParaStyle := mergeParagraphStyle basePS style
  let mergedTextStyle := baseTS
  let isRTL := mergedParaStyle.direction == some "RIGHT_TO_LEFT"
  let listChange : Option String :=
    match paragraph.bullet with
    | some bullet =>
      detectListChange bullet doc listStack isRTL prevLevel prevListId
    | none =>
      if listStack.length > 0 then
        some (String.intercalate "|"
          (List.replicate listStack.length "endLIST"))
      else none
  let tag := tagOf namedType
  let headingIdAttr :=
    match truthyStr style.headingId with
    | some h => " id=\"heading-" ++ escapeHtml h ++ "\""
    | none => ""
  let inlineStyle :=
    (match cssTextAlign isRTL mergedParaStyle.alignment with
     | some a => "text-align:" ++ a ++ ";"
     | none => "") ++
    (match mergedParaStyle.lineSpacing with
     | some ls =>
       -- lineSpacing as a percentage, against the 1.4 CSS base line-height
       if ls ≠ 0 then
         "line-height:" ++ qToString (ls * (14 / 10) / 100) ++ ";"
       else ""
     | none => "") ++
    (match magPx mergedParaStyle.spaceAbove with
     | some px => "margin-top:" ++ intToString px ++ "px;"
     | none => "") ++
    (match magPx mergedParaStyle.spaceBelow with
     | some px => "margin-bottom:" ++ intToString px ++ "px;"
     | none => "") ++
    (match magPx mergedParaStyle.indentFirstLine with
     | some px => "text-indent:" ++ intToString px ++ "px;"
     | none =>
       match magPx mergedParaStyle.indentStart with
       | some px => "margin-left:" ++ intToString px ++ "px;"
       | none => "") ++
    (match magPx mergedParaStyle.indentEnd with
     | some px => "margin-right:" ++ intToString px ++ "px;"
     | none => "") ++
    formatBorder "top" mergedParaStyle.borderTop ++
    formatBorder "bottom" mergedParaStyle.borderBottom ++
    formatBorder "left" mergedParaStyle.borderLeft ++
    formatBorder "right" mergedParaStyle.borderRight ++
    (match rgbOf (mergedParaStyle.shading.bind (·.backgroundColor)) with
     | some rgb =>
       "background-color:" ++
         rgbToHex (rgb.red.getD 0) (rgb.green.getD 0) (rgb.blue.getD 0) ++
         ";" ++ "padding:0.5em;"
     | none => "") ++
    (if truthyB mergedParaStyle.pageBreakBefore then
      "page-break-before:always;" else "") ++
    (if truthyB mergedParaStyle.keepLinesTogether then
      "page-break-inside:avoid;" else "") ++
    (if truthyB mergedParaStyle.keepWithNext then
      "page-break-after:avoid;" else "") ++
    (if truthyB mergedParaStyle.avoidWidowAndOrphan then
      "orphans:2;widows:2;" else "")
  let dirAttr :=
    if mergedParaStyle.direction == some "RIGHT_TO_LEFT" then " dir=\"rtl\""
    else ""
  let mergedRuns := mergeTextRuns paragraph.elements
  let innerHtml :=
    mergedRuns.foldl
      (fun (acc : String) r =>
        acc ++
          match r with
          | .inlineObjectElement objId => renderInlineObject objId doc
          | .textRun tr => renderTextRun tr mergedTextStyle
          | .footnoteReference fr => renderFootnoteReference fr
          | .equation e => renderEquation e
          | .autoText a => renderAutoText a)
      ""
  let paragraphHtml :=
    "<" ++ tag ++ headingIdAttr ++ dirAttr ++ ">" ++ innerHtml ++
      "</" ++ ((jsSplit tag ' ').headD "") ++ ">"
  (insertInlineStyle paragraphHtml inlineStyle, listChange)

/-! ## `renderTable` -/

def emptyCellStyle : TableCellStyle :=
  ⟨none, none, none, none, none, none, none, none, none⟩

/-- `renderTable(table, doc, …)`: rows and cells as inline-styled
`<table>/<tr>/<td>` markup; cell paragraphs are rendered with a fresh
empty list stack and no previous-list context. -/
def renderTable (rows : List TableRow) (doc : Document)
    (namedStylesMap : List (String × (ParagraphStyle × TextStyle))) :
    String :=
  let rowsHtml :=
    rows.foldl
      (fun (acc : String) row =>
        let rowStyle : String :=
          match rgbOf (row.tableCellStyle.bind (·.backgroundColor)) with
          | some rgb =>
            "background-color:" ++
              rgbToHex (rgb.red.getD 0) (rgb.green.getD 0)
                (rgb.blue.getD 0) ++ ";"
          | none => ""
        let cellsHtml :=
          row.tableCells.foldl
            (fun (acc2 : String) cell =>
              let cellStyleObj := cell.tableCellStyle.getD emptyCellStyle
              let cellStyle : String :=
                "padding:0.5em;" ++
                (match rgbOf cellStyleObj.backgroundColor with
                 | some rgb =>
                   "background-color:" ++
                     rgbToHex (rgb.red.getD 0) (rgb.green.getD 0)
                       (rgb.blue.getD 0) ++ ";"
                 | none => "") ++
                (match cellStyleObj.borderTop with
                 | some b => formatBorder "top" (some b)
                 | none => "border-top:1px solid #ccc;") ++
                (match cellStyleObj.borderBottom with
                 | some b => formatBorder "bottom" (some b)
                 | none => "border-bottom:1px solid #ccc;") ++
                (match cellStyleObj.borderLeft with
                 | some b => formatBorder "left" (some b)
                 | none => "border-left:1px solid #ccc;") ++
                (match cellStyleObj.borderRight with
                 | some b => formatBorder "right" (some b)
                 | none => "border-right:1px solid #ccc;") ++
                (match magPx cellStyleObj.paddingTop with
                 | some px => "padding-top:" ++ intToString px ++ "px;"
                 | none => "") ++
                (match magPx cellStyleObj.paddingBottom with
                 | some px => "padding-bottom:" ++ intToString px ++ "px;"
                 | none => "") ++
                (match magPx cellStyleObj.paddingLeft with
                 | some px => "padding-left:" ++ intToString px ++ "px;"
                 | none => "") ++
                (match magPx cellStyleObj.paddingRight with
                 | some px => "padding-right:" ++ intToString px ++ "px;"
                 | none => "")
              let colspan :=
                match cell.colspan with
                | some c =>
                  if c > 1 then " colspan=\"" ++ intToString c ++ "\"" else ""
                | none => ""
              let rowspan :=
                match cell.rowspan with
                | some c =>
                  if c > 1 then " rowspan=\"" ++ intToString c ++ "\"" else ""
                | none => ""
              let contentHtml :=
                cell.content.foldl
                  (fun (acc3 : String) c =>
                    match c with
                    | some p =>
                      acc3 ++
                        (renderParagraph p doc [] (-1) none namedStylesMap).1
                    | none => acc3)
                  ""
              acc2 ++ "<td" ++ colspan ++ rowspan ++ " style=\"" ++
                cellStyle ++ "\">" ++ contentHtml ++ "</td>")
            ""
        acc ++ "<tr" ++
          (if rowStyle == "" then "" else " style=\"" ++ rowStyle ++ "\"") ++
          ">" ++ cellsHtml ++ "</tr>")
      ""
  "<table class=\"doc-table\" style=\"border-collapse:collapse;\">" ++
    rowsHtml ++ "</table>"

/-! ## `renderTableOfContents` -/

/-- `findHeadingLevelById(doc, headingId)`: the heading level of the
body paragraph declaring `headingId`, 1 when not found. -/
def findHeadingLevelById (doc : Document) (headingId : String) : Int :=
  let rec go : List Element → Int
    | [] => 1
    | .paragraph p :: rest =>
      let ps := p.paragraphStyle
      if ps.headingId = some headingId then
        let named := (truthyStr ps.namedStyleType).getD "NORMAL_TEXT"
        if sw "HEADING_" named then
          match parseIntJS (replaceOnce named "HEADING_" "") with
          | some lv => if 1 ≤ lv ∧ lv ≤ 6 then lv else go rest
          | none => go rest
        else go rest
      else go rest
    | _ :: rest => go rest
  go doc.body

/-- `renderTableOfContents(toc, doc, …)`: each content paragraph wrapped
in a `toc-level-N` container, `N` from the deepest heading its links
point to, clamped to 1…4.  Non-paragraph entries are skipped; the
`listChange` of the paragraph renderer is ignored here. -/
def renderTableOfContents (entries : List (Option Paragraph))
    (doc : Document)
    (namedStylesMap : List (String × (ParagraphStyle × TextStyle))) :
    String :=
  let body :=
    entries.foldl
      (fun (acc : String) c =>
        match c with
        | none => acc
        | some p =>
          let headingLevel0 :=
            p.elements.foldl
              (fun (hl : Int) elem =>
                match elem with
                | .textRun tr =>
                  match tr.textStyle.link.bind
                      (fun l => truthyStr l.headingId) with
                  | some hid =>
                    let lv := findHeadingLevelById doc hid
                    if lv > hl then lv else hl
                  | none => hl
                | _ => hl)
              1
          let headingLevel :=
            if headingLevel0 < 1 then 1
            else if headingLevel0 > 4 then 4 else headingLevel0
          let pHtml := (renderParagraph p doc [] (-1) none namedStylesMap).1
          acc ++ "<div class=\"toc-level-" ++ intToString headingLevel ++
            "\">" ++ pHtml ++ "</div>\n")
      ""
  "<div class=\"doc-toc\">\n" ++ body ++ "</div>\n"

/-! ## The body-content pass of `exportDocToHTML` -/

/-- The `listId:nestingLevel` key of the pre-pass counter map (level
`bullet.nestingLevel ?? 0`; an absent list id stringifies as
`undefined`). -/
def bulletKey (bullet : Bullet) : String :=
  (match bullet.listId with
   | some l => l
   | none => "undefined") ++ ":" ++ intToString (bullet.nestingLevel.getD 0)

/-- One iteration of the pre-pass loop of `exportDocToHTML`:
`listItemCounts[key] = (listItemCounts[key] || 0) + 1` for a bulleted
paragraph, no change otherwise. -/
def countStep (counts : String → Nat) (el : Element) : String → Nat :=
  match el with
  | .paragraph p =>
    match p.bullet with
    | some bullet =>
      fun k => if k = bulletKey bullet then counts k + 1 else counts k
    | none => counts
  | _ => counts

/-- The pre-pass of `exportDocToHTML`: count the bulleted paragraphs per
`listId:nestingLevel` key. -/
def listItemCounts (body : List Element) : String → Nat :=
  body.foldl countStep (fun _ => 0)

/-- The mutable state the body loop of `exportDocToHTML` threads:
`listStack`, `prevNestingLevel`, `prevListId`, and the `htmlLines`
emitted so far (body-content lines only; the HTML skeleton around them
is out of scope here). -/
structure ExpState where
  listStack : List String
  prevNestingLevel : Int
  prevListId : Option String
  lines : List String

/-- One iteration of the `for (const element of bodyContent)` loop. -/
def processElement (doc : Document)
    (namedStylesMap : List (String × (ParagraphStyle × TextStyle)))
    (st : ExpState) (el : Element) : ExpState :=
  match el with
  | .sectionBreak ss =>
    let closed := closeAllLists st.listStack
    let line :=
      match ss with
      | some sectionStyle =>
        if sectionStyle.columnSeparatorStyle = some "BETWEEN_EACH_COLUMN" then
          "<div class=\"column-break\"></div>"
        else
          match sectionStyle.columnProperties with
          | some cols =>
            if cols.length > 1 then
              "<div class=\"multi-column\" style=\"column-count:" ++
                natToString cols.length ++ ";\">"
            else "<div class=\"section-break\"></div>"
          | none => "<div class=\"section-break\"></div>"
      | none => "<div class=\"section-break\"></div>"
    { st with listStack := [], lines := st.lines ++ closed ++ [line] }
  | .tableOfContents entries =>
    { st with
      listStack := [],
      lines := st.lines ++ closeAllLists st.listStack ++
        [renderTableOfContents entries doc namedStylesMap] }
  | .horizontalRule =>
    { st with
      listStack := [],
      lines := st.lines ++ closeAllLists st.listStack ++
        ["<hr style=\"border: 1px solid #ccc; margin: 1em 0;\">"] }
  | .table rows =>
    { st with
      listStack := [],
      lines := st.lines ++ closeAllLists st.listStack ++
        [renderTable rows doc namedStylesMap] }
  | .paragraph p =>
    let nestingLevel : Int :=
      match p.bullet with
      | some b => b.nestingLevel.getD 0
      | none => -1
    let preClose :=
      if st.prevNestingLevel ≥ 0 ∧ st.prevNestingLevel < nestingLevel then
        []  -- nesting deeper: leave the previous <li> open
      else if st.prevNestingLevel ≥ 0 ∧ st.listStack.length > 0 then
        ["</li>"]
      else []
    let rendered :=
      renderParagraph p doc st.listStack st.prevNestingLevel st.prevListId
        namedStylesMap
    let afterList :=
      match rendered.2 with
      | some lc =>
        if lc = "" then (st.listStack, [])  -- `if (listChange)`: "" is falsy
        else handleListState lc st.listStack
      | none => (st.listStack, [])
    if afterList.1.length > 0 then
      { listStack := afterList.1,
        prevNestingLevel := nestingLevel,
        prevListId := truthyStr (p.bullet.bind (·.listId)),
        lines := st.lines ++ preClose ++ afterList.2 ++
          ["<li>" ++ rendered.1] }
    else
      let closeLi := if st.prevNestingLevel ≥ 0 then ["</li>"] else []
      { listStack := afterList.1,
        prevNestingLevel :=
          if st.prevNestingLevel ≥ 0 then -1 else st.prevNestingLevel,
        prevListId := none,
        lines := st.lines ++ preClose ++ afterList.2 ++ closeLi ++
          [rendered.1] }

/-- The body-content pass of `exportDocToHTML` up to the end of the
element loop: compute the pre-pass counts, inject them into the document
(`doc.___listItemCounts = listItemCounts`), then fold the loop over
`body.content`, starting from an empty list stack. -/
def exportBody (doc : Document) : ExpState :=
  let counts := listItemCounts doc.body
  let doc := { doc with extListItemCounts := some counts }
  let namedStylesMap := buildNamedStylesMap doc
  doc.body.foldl (processElement doc namedStylesMap) ⟨[], -1, none, []⟩

/-- All body-content lines `exportDocToHTML` emits: the loop's lines,
the final `</li>` when a list item is still open, then
`closeAllLists`. -/
def bodyLines (doc : Document) : List String :=
  let s := exportBody doc
  s.lines ++ (if s.prevNestingLevel ≥ 0 then ["</li>"] else []) ++
    closeAllLists s.listStack

end Export

namespace Main

open GDoc GD

/-! ## `src/google-docs-high-fidelity-export.js` — run merging

This file's `mergeTextRuns` handles only `inlineObjectElement` and
`textRun` entries (other kinds are dropped from the output and leave the
`last` pointer untouched), and its `isSameTextStyle` tracks nine fields
(no `backgroundColor`/`smallCaps`). -/

/-- `isSameTextStyle(a, b)`: the nine tracked fields compared through
`JSON.stringify(x[f] || null)` — structural equality with falsy scalars
(`false`, `""`) identified with absence. -/
def isSameTextStyle (a b : TextStyle) : Bool :=
  Export.normB a.bold == Export.normB b.bold &&
  Export.normB a.italic == Export.normB b.italic &&
  Export.normB a.underline == Export.normB b.underline &&
  Export.normB a.strikethrough == Export.normB b.strikethrough &&
  truthyStr a.baselineOffset == truthyStr b.baselineOffset &&
  a.fontSize == b.fontSize &&
  a.weightedFontFamily == b.weightedFontFamily &&
  a.foregroundColor == b.foregroundColor &&
  a.link == b.link

/-- One loop iteration of this file's `mergeTextRuns`: state is the
output in reverse plus the non-nullness of `last` (which, when set,
aliases the head of the reversed output, a text run). -/
def mergeStep : List ParaElement × Bool → ParaElement →
    List ParaElement × Bool
  | (acc, _), .inlineObjectElement o => (.inlineObjectElement o :: acc, false)
  | (acc, lastRun), .textRun tr =>
    if lastRun then
      match acc with
      | .textRun tr0 :: rest =>
        if isSameTextStyle tr0.textStyle tr.textStyle then
          (.textRun ⟨tr0.content ++ tr.content, tr0.textStyle⟩ :: rest, true)
        else (.textRun tr :: acc, true)
      | _ => (.textRun tr :: acc, true)
    else (.textRun tr :: acc, true)
  | (acc, lastRun), _ => (acc, lastRun)  -- any other kind: no branch matches

/-- `mergeTextRuns(elements)` of
`src/google-docs-high-fidelity-export.js`. -/
def mergeTextRuns (elements : List ParaElement) : List ParaElement :=
  (elements.foldl mergeStep ([], false)).1.reverse

/-- Two adjacent elements are separate runs: when both are text runs,
their tracked styles differ. -/
def SepRuns (a b : ParaElement) : Prop :=
  ∀ ta tb, a = .textRun ta → b = .textRun tb →
    isSameTextStyle ta.textStyle tb.textStyle = false

/-- No two adjacent entries of a run list are text runs with the same
tracked style. -/
def noAdjacentSame (l : List ParaElement) : Prop := List.Chain' SepRuns l

end Main

namespace Spec

open GDoc GD

/-! ## Claim vocabulary

Executable formalization of the properties the claims state, over the
embedded exporter: tag classification of emitted lines, a matching-tag
balance checker, counters, and concrete sample documents. -/

/-- A list-frame tag kind. -/
inductive LTag : Type where
  | ul : LTag
  | ol : LTag
  deriving DecidableEq

/-- The list open/close event an emitted body line represents, if any:
the body pass emits list tags only as the whole lines `<ul>`,
`<ul dir="rtl">`, `<ol>`, `<ol dir="rtl">`, `</ul>`, `</ol>`. -/
def lineTagEvent (l : String) : Option (Bool × LTag) :=
  if l = "<ul>" ∨ l = "<ul dir=\"rtl\">" then some (true, .ul)
  else if l = "<ol>" ∨ l = "<ol dir=\"rtl\">" then some (true, .ol)
  else if l = "</ul>" then some (false, .ul)
  else if l = "</ol>" then some (false, .ol)
  else none

/-- Run the matching-tag (Dyck) automaton over emitted lines: an open
tag pushes, a close tag must match the innermost open tag, and any other
line is inert.  `none` means an unmatched close appeared. -/
def runDyck : List String → List LTag → Option (List LTag)
  | [], s => some s
  | l :: ls, s =>
    match lineTagEvent l with
    | none => runDyck ls s
    | some (true, t) => runDyck ls (t :: s)
    | some (false, t) =>
      match s with
      | [] => none
      | t' :: s' => if t' = t then runDyck ls s' else none

/-- The number of list close tags among emitted lines. -/
def countClosings (lines : List String) : Nat :=
  (lines.filter fun l => l == "</ul>" || l == "</ol>").length

/-- The number of list open tags among emitted lines (every list open
tag the engine emits starts with `<ul` or `<ol`). -/
def countOpenings (lines : List String) : Nat :=
  (lines.filter fun l => sw "<ul" l || sw "<ol" l).length

/-- The list kind a well-formed stack frame encodes (frames are
`ul…:level` / `ol…:level` strings). -/
def absTag (f : String) : LTag := if sw "u" f then .ul else .ol

/-- The frames the exporter script's `handleListState` pushes:
a type string in `ul`, `ol`, `ul_rtl`, `ol_rtl`, a colon, and a level
string. -/
def FrameOK (f : String) : Prop :=
  ∃ lvl, f = "ul:" ++ lvl ∨ f = "ol:" ++ lvl ∨
    f = "ul_rtl:" ++ lvl ∨ f = "ol_rtl:" ++ lvl

/-! ## Sample documents -/

/-- A one-level unordered-list definition whose two nesting levels carry
the disc and circle bullet glyphs. -/
def ulListDef : ListDef :=
  ⟨some ⟨some [⟨some "●", none⟩, ⟨some "○", none⟩]⟩⟩

/-- A plain paragraph with one unstyled text run. -/
def textPara (namedStyleType : Option String) (bullet : Option Bullet)
    (content : String) : Paragraph :=
  ⟨{ emptyParagraphStyle with namedStyleType := namedStyleType }, bullet,
   [.textRun ⟨content, emptyTextStyle⟩]⟩

/-- The five-paragraph document of the end-to-end scenario:
H1 "Title", plain "intro", bullet items A (level 0), A1 (level 1),
B (level 0), all in one unordered list `L`. -/
def scenarioDoc : Document :=
  { body :=
      [.paragraph (textPara (some "HEADING_1") none "Title"),
       .paragraph (textPara none none "intro"),
       .paragraph (textPara none (some ⟨some "L", some 0⟩) "A"),
       .paragraph (textPara none (some ⟨some "L", some 1⟩) "A1"),
       .paragraph (textPara none (some ⟨some "L", some 0⟩) "B")],
    lists := [("L", ulListDef)],
    inlineObjects := [],
    namedStyles := [],
    extListItemCounts := none }

/-- Counterexample input for C3: two distinct unordered lists `A` and
`B` with identical glyphs; the previous item (level 0, list `A`) left
the frame `ul:0` open, and the next paragraph is a level-0 item of
list `B`. -/
def c3doc : Document :=
  { body := [],
    lists := [("A", ulListDef), ("B", ulListDef)],
    inlineObjects := [],
    namedStyles := [],
    extListItemCounts := none }

def c3para : Paragraph := textPara none (some ⟨some "B", some 0⟩) "x"

end Spec

/-! # Theorems -/

namespace Lib

theorem escAmp_append (a b : List Char) :
    escAmp (a ++ b) = escAmp a ++ escAmp b := by
  simp [escAmp]

theorem escLt_append (a b : List Char) :
    escLt (a ++ b) = escLt a ++ escLt b := by
  simp [escLt]

theorem escGt_append (a b : List Char) :
    escGt (a ++ b) = escGt a ++ escGt b := by
  simp [escGt]

theorem escQuot_append (a b : List Char) :
    escQuot (a ++ b) = escQuot a ++ escQuot b := by
  simp [escQuot]

theorem escapeHtmlChars_cons (c : Char) (l : List Char) :
    escapeHtmlChars (c :: l) = escChar c ++ escapeHtmlChars l := by
  have h1 : escAmp (c :: l) = escAmp [c] ++ escAmp l := by
    simpa using escAmp_append [c] l
  by_cases hc : c = '&'
  · subst hc
    simp [escapeHtmlChars, escAmp, escLt, escGt, escQuot, escChar]
  · by_cases hlt : c = '<'
    · subst hlt
      simp [escapeHtmlChars, escAmp, escLt, escGt, escQuot, escChar]
    · by_cases hgt : c = '>'
      · subst hgt
        simp [escapeHtmlChars, escAmp, escLt, escGt, escQuot, escChar]
      · by_cases hq : c = '"'
        · subst hq
          simp [escapeHtmlChars, escAmp, escLt, escGt, escQuot, escChar]
        · simp [escapeHtmlChars, escAmp, escLt, escGt, escQuot, escChar,
            hc, hlt, hgt, hq]

/-- The four sequential passes act like a single simultaneous
character-by-character substitution. -/
theorem escapeHtmlChars_eq_flatMap (l : List Char) :
    escapeHtmlChars l = l.flatMap escChar := by
  induction l with
  | nil => rfl
  | cons c cs ih => rw [escapeHtmlChars_cons, ih, List.flatMap_cons]

theorem escChar_no_raw (c x : Char) (hx : x ∈ escChar c) :
    x ≠ '<' ∧ x ≠ '>' ∧ x ≠ '"' := by
  by_cases h1 : c = '&'
  · subst h1; simp only [escChar, if_pos rfl] at hx
    fin_cases hx <;> simp
  · by_cases h2 : c = '<'
    · subst h2; simp only [escChar] at hx
      norm_num at hx
      fin_cases hx <;> simp
    · by_cases h3 : c = '>'
      · subst h3; simp only [escChar] at hx
        norm_num at hx
        fin_cases hx <;> simp
      · by_cases h4 : c = '"'
        · subst h4; simp only [escChar] at hx
          norm_num at hx
          fin_cases hx <;> simp
        · simp only [escChar, if_neg h1, if_neg h2, if_neg h3, if_neg h4,
            List.mem_singleton] at hx
          subst hx; exact ⟨h2, h3, h4⟩

mutual

theorem deepCopy_eq : ∀ v : JValue, deepCopy v = v
  | .jnull => rfl
  | .jbool _ => rfl
  | .jnum _ => rfl
  | .jstr _ => rfl
  | .jarr xs => by rw [deepCopy, deepCopyArr_eq]
  | .jobj kvs => by rw [deepCopy, deepCopyObj_eq]

theorem deepCopyArr_eq : ∀ xs : List JValue, deepCopyArr xs = xs
  | [] => rfl
  | x :: xs => by rw [deepCopyArr, deepCopy_eq, deepCopyArr_eq]

theorem deepCopyObj_eq : ∀ l : List (String × JValue), deepCopyObj l = l
  | [] => rfl
  | (k, v) :: rest => by rw [deepCopyObj, deepCopy_eq, deepCopyObj_eq]

end

theorem deepMerge_empty (v : JValue) : deepMerge v (.jobj []) = v := by
  simp [deepMerge, mergeEntries]

end Lib

/-- C8: `deepMerge(deepCopy(A), {})` equals `A`; the JSON-round-trip copy
is structurally equal to the original (so the in-place merge operates on a
fresh tree and the original `A` is never mutated — in this pure embedding,
merging the copy and merging the original coincide); and the merge
recurses into nested non-array object values, overlay keys overriding
base keys. -/
theorem c8_deepMerge_deepCopy :
    (∀ A : Lib.JValue, Lib.deepMerge (Lib.deepCopy A) (.jobj []) = A) ∧
    (∀ A B : Lib.JValue,
      Lib.deepCopy A = A ∧
      Lib.deepMerge (Lib.deepCopy A) B = Lib.deepMerge A B) ∧
    (∀ (k : String) (b v : Lib.JValue),
      Lib.isPlainObj b = true → Lib.isPlainObj v = true →
      Lib.deepMerge (.jobj [(k, b)]) (.jobj [(k, v)]) =
        .jobj [(k, Lib.deepMerge b v)]) ∧
    (∀ (k : String) (b v : Lib.JValue), Lib.isPlainObj v = false →
      Lib.deepMerge (.jobj [(k, b)]) (.jobj [(k, v)]) = .jobj [(k, v)]) := by
  refine ⟨?_, ?_, ?_, ?_⟩
  · intro A; rw [Lib.deepCopy_eq]; exact Lib.deepMerge_empty A
  · intro A B; rw [Lib.deepCopy_eq]; exact ⟨rfl, rfl⟩
  · intro k b v hb hv
    cases b with
    | jobj bl =>
      cases v with
      | jobj vl =>
        simp [Lib.deepMerge, Lib.mergeEntries, Lib.mergeEntry,
          Lib.isPlainObj, Lib.getKey, Lib.setKey, Lib.jsFalsy]
      | jnull => simp [Lib.isPlainObj] at hv
      | jbool _ => simp [Lib.isPlainObj] at hv
      | jnum _ => simp [Lib.isPlainObj] at hv
      | jstr _ => simp [Lib.isPlainObj] at hv
      | jarr _ => simp [Lib.isPlainObj] at hv
    | jnull => simp [Lib.isPlainObj] at hb
    | jbool _ => simp [Lib.isPlainObj] at hb
    | jnum _ => simp [Lib.isPlainObj] at hb
    | jstr _ => simp [Lib.isPlainObj] at hb
    | jarr _ => simp [Lib.isPlainObj] at hb
  · intro k b v hv
    cases v with
    | jobj vl => simp [Lib.isPlainObj] at hv
    | jnull =>
      simp [Lib.deepMerge, Lib.mergeEntries, Lib.mergeEntry,
        Lib.isPlainObj, Lib.setKey]
    | jbool _ =>
      simp [Lib.deepMerge, Lib.mergeEntries, Lib.mergeEntry,
        Lib.isPlainObj, Lib.setKey]
    | jnum _ =>
      simp [Lib.deepMerge, Lib.mergeEntries, Lib.mergeEntry,
        Lib.isPlainObj, Lib.setKey]
    | jstr _ =>
      simp [Lib.deepMerge, Lib.mergeEntries, Lib.mergeEntry,
        Lib.isPlainObj, Lib.setKey]
    | jarr _ =>
      simp [Lib.deepMerge, Lib.mergeEntries, Lib.mergeEntry,
        Lib.isPlainObj, Lib.setKey]

/-- Witness for C8 at the spec's `fontSize: {magnitude}` example. -/
theorem c8_deepMerge_deepCopy_witness :
    Lib.deepMerge
      (.jobj [("fontSize",
        .jobj [("magnitude", .jnum 12), ("unit", .jstr "PT")])])
      (.jobj [("fontSize", .jobj [("magnitude", .jnum 14)])]) =
    .jobj [("fontSize",
      Lib.deepMerge
        (.jobj [("magnitude", .jnum 12), ("unit", .jstr "PT")])
        (.jobj [("magnitude", .jnum 14)]))] :=
  c8_deepMerge_deepCopy.2.2.1 "fontSize"
    (.jobj [("magnitude", .jnum 12), ("unit", .jstr "PT")])
    (.jobj [("magnitude", .jnum 14)]) rfl rfl

/-- C10: `escapeHtml` in `lib/utils.js` maps null and undefined to the
empty string; on every string its output is the character-by-character
entity substitution of the input (`&`→`&amp;`, `<`→`&lt;`, `>`→`&gt;`,
`"`→`&quot;`), and the output contains no raw `<`, `>` or `"` character. -/
theorem c10_escapeHtml_safe :
    Lib.escapeHtml none = "" ∧
    (∀ s : String,
      (Lib.escapeHtml (some s)).data = s.data.flatMap Lib.escChar) ∧
    (∀ s : String, ∀ x ∈ (Lib.escapeHtml (some s)).data,
      x ≠ '<' ∧ x ≠ '>' ∧ x ≠ '"') := by
  refine ⟨rfl, ?_, ?_⟩
  · intro s
    simpa [Lib.escapeHtml] using Lib.escapeHtmlChars_eq_flatMap s.data
  · intro s x hx
    simp only [Lib.escapeHtml] at hx
    rw [Lib.escapeHtmlChars_eq_flatMap, List.mem_flatMap] at hx
    obtain ⟨c, -, hc⟩ := hx
    exact Lib.escChar_no_raw c x hc

/-- C5: the list engine's nesting level is the explicit
`bullet.nestingLevel` when present; otherwise inferred from the
indentation start: at most the low threshold (40pt) gives level 0, at
least the high threshold (60pt) gives level 1, and strictly in between
the previous level is kept when one exists (`prevLevel ≥ 0`), else
level 0. -/
theorem c5_infer_nesting_level :
    (∀ (b : GDoc.Bullet) (ps : Option GDoc.ParagraphStyle) (prev n : Int),
      b.nestingLevel = some n →
      Lib.inferNestingLevel (some b) ps prev = n) ∧
    (∀ (b : GDoc.Bullet) (ps : Option GDoc.ParagraphStyle) (prev : Int)
        (m : ℚ),
      b.nestingLevel = none →
      (((ps.bind (·.indentStart)).bind (·.magnitude)).getD 0) = m →
      ((m ≤ 40 → Lib.inferNestingLevel (some b) ps prev = 0) ∧
       (60 ≤ m → Lib.inferNestingLevel (some b) ps prev = 1) ∧
       (40 < m → m < 60 → 0 ≤ prev →
         Lib.inferNestingLevel (some b) ps prev = prev) ∧
       (40 < m → m < 60 → prev < 0 →
         Lib.inferNestingLevel (some b) ps prev = 0))) := by
  constructor
  · intro b ps prev n hb
    simp [Lib.inferNestingLevel, hb]
  · intro b ps prev m hb hm
    refine ⟨fun h1 => ?_, fun h1 => ?_, fun h1 h2 h3 => ?_,
      fun h1 h2 h3 => ?_⟩ <;>
      simp only [Lib.inferNestingLevel, hb, Option.bind_some,
        Option.some_bind, hm, Lib.INDENT_LEVEL_0_MAX,
        Lib.INDENT_LEVEL_1_MIN] <;>
      split_ifs <;> first | rfl | linarith

/-- C5 witness: ambiguous indentation (50pt) with a previous level 1
stays at level 1. -/
theorem c5_infer_nesting_level_witness :
    Lib.inferNestingLevel (some ⟨none, none⟩)
      (some { GDoc.emptyParagraphStyle with
              indentStart := some ⟨some (50 : ℚ), none⟩ }) 1 = 1 :=
  (c5_infer_nesting_level.2 ⟨none, none⟩
      (some { GDoc.emptyParagraphStyle with
              indentStart := some ⟨some (50 : ℚ), none⟩ }) 1 50
      rfl rfl).2.2.1 (by norm_num) (by norm_num) (by norm_num)

/-- C6: with the RTL flip of `renderParagraph` (`isRTL` is computed
there as `direction == RIGHT_TO_LEFT`), alignment `START` resolves to
CSS `right` and `END` to `left`, while `CENTER` and `JUSTIFIED` resolve
to `center` and `justify` whatever the direction. -/
theorem c6_rtl_alignment_flip :
    Export.cssTextAlign true (some "START") = some "right" ∧
    Export.cssTextAlign true (some "END") = some "left" ∧
    (∀ rtl : Bool, Export.cssTextAlign rtl (some "CENTER") = some "center") ∧
    (∀ rtl : Bool,
      Export.cssTextAlign rtl (some "JUSTIFIED") = some "justify") := by
  refine ⟨by decide, by decide, ?_, ?_⟩ <;> intro rtl <;> cases rtl <;> decide

/-- C1: the body-content pass over the five-paragraph scenario document
emits exactly the lines below; their concatenation is the claimed
structure `<h1>…</h1><p>…</p><ul><li>…<ul><li>…</li></ul></li><li>…</li></ul>`,
with each heading/paragraph/item body rendered per §4 of the spec (runs
wrapped in `<span>`, list-item paragraphs in `<p>`). -/
theorem c1_end_to_end_scenario :
    Export.bodyLines Spec.scenarioDoc =
      ["<h1><span>Title</span></h1>", "<p><span>intro</span></p>",
       "<ul>", "<li><p><span>A</span></p>", "<ul>",
       "<li><p><span>A1</span></p>", "</li>", "</ul>", "</li>",
       "<li><p><span>B</span></p>", "</li>", "</ul>"] ∧
    String.join (Export.bodyLines Spec.scenarioDoc) =
      "<h1><span>Title</span></h1>" ++ "<p><span>intro</span></p>" ++
      "<ul>" ++
        "<li>" ++ "<p><span>A</span></p>" ++
          "<ul>" ++ "<li>" ++ "<p><span>A1</span></p>" ++ "</li>" ++
          "</ul>" ++ "</li>" ++
        "<li>" ++ "<p><span>B</span></p>" ++ "</li>" ++
      "</ul>" := by
  exact ⟨by decide, by decide⟩

theorem countStep_le (acc : String → Nat) (el : GDoc.Element) (k : String) :
    acc k ≤ Export.countStep acc el k := by
  cases el with
  | paragraph p =>
    cases hb : p.bullet with
    | some bullet =>
      simp only [Export.countStep, hb]
      split <;> omega
    | none => simp [Export.countStep, hb]
  | sectionBreak ss => simp [Export.countStep]
  | tableOfContents es => simp [Export.countStep]
  | horizontalRule => simp [Export.countStep]
  | table rows => simp [Export.countStep]

theorem foldl_countStep_le (body : List GDoc.Element) (acc : String → Nat)
    (k : String) : acc k ≤ (body.foldl Export.countStep acc) k := by
  induction body generalizing acc with
  | nil => simp
  | cons el rest ih =>
    calc acc k ≤ Export.countStep acc el k := countStep_le acc el k
    _ ≤ (rest.foldl Export.countStep (Export.countStep acc el)) k :=
      ih (Export.countStep acc el)
    _ = ((el :: rest).foldl Export.countStep acc) k := by simp

theorem foldl_countStep_mem (body : List GDoc.Element) (acc : String → Nat)
    (p : GDoc.Paragraph) (b : GDoc.Bullet)
    (hmem : GDoc.Element.paragraph p ∈ body) (hb : p.bullet = some b) :
    acc (Export.bulletKey b) + 1 ≤
      (body.foldl Export.countStep acc) (Export.bulletKey b) := by
  induction body generalizing acc with
  | nil => cases hmem
  | cons el rest ih =>
    rcases List.mem_cons.mp hmem with h | h
    · subst h
      have hstep : Export.countStep acc (GDoc.Element.paragraph p)
          (Export.bulletKey b) = acc (Export.bulletKey b) + 1 := by
        simp [Export.countStep, hb]
      calc acc (Export.bulletKey b) + 1
          = Export.countStep acc (GDoc.Element.paragraph p)
              (Export.bulletKey b) := hstep.symm
        _ ≤ (rest.foldl Export.countStep
              (Export.countStep acc (GDoc.Element.paragraph p)))
              (Export.bulletKey b) := foldl_countStep_le _ _ _
        _ = (((GDoc.Element.paragraph p) :: rest).foldl Export.countStep acc)
              (Export.bulletKey b) := by simp
    · calc acc (Export.bulletKey b) + 1
          ≤ Export.countStep acc el (Export.bulletKey b) + 1 := by
            have := countStep_le acc el (Export.bulletKey b); omega
        _ ≤ (rest.foldl Export.countStep (Export.countStep acc el))
              (Export.bulletKey b) := ih (Export.countStep acc el) h
        _ = ((el :: rest).foldl Export.countStep acc)
              (Export.bulletKey b) := by simp

/-- Any bulleted paragraph of the body contributes at least one count at
its own key. -/
theorem listItemCounts_pos (body : List GDoc.Element) (p : GDoc.Paragraph)
    (b : GDoc.Bullet) (hmem : GDoc.Element.paragraph p ∈ body)
    (hb : p.bullet = some b) :
    1 ≤ Export.listItemCounts body (Export.bulletKey b) := by
  have := foldl_countStep_mem body (fun _ => 0) p b hmem hb
  simpa [Export.listItemCounts] using this

/-- C4: for a bulleted paragraph of the document whose glyph carries no
symbol and has type `GLYPH_TYPE_UNSPECIFIED`, the main exporter's
inline decision agrees with the library's `isNumberedList`, and against
the whole-document pre-pass counts the list is ordered exactly when the
count of paragraphs at its `(listId, nestingLevel)` key is 1, unordered
exactly when that count is 2 or more. -/
theorem c4_unspecified_glyph_heuristic (doc : GDoc.Document)
    (p : GDoc.Paragraph) (b : GDoc.Bullet) (lid : String) (g : GDoc.Glyph)
    (hmem : GDoc.Element.paragraph p ∈ doc.body)
    (hb : p.bullet = some b) (hlid : b.listId = some lid)
    (hsym : g.glyphSymbol = none)
    (htype : g.glyphType = some "GLYPH_TYPE_UNSPECIFIED") :
    (Export.isNumberedOf (some g) lid (b.nestingLevel.getD 0)
        (some (Export.listItemCounts doc.body)) =
      Lib.isNumberedList (some g) lid (b.nestingLevel.getD 0)
        (some (Export.listItemCounts doc.body))) ∧
    (Lib.isNumberedList (some g) lid (b.nestingLevel.getD 0)
        (some (Export.listItemCounts doc.body)) = true ↔
      Export.listItemCounts doc.body
        (lid ++ ":" ++ GD.intToString (b.nestingLevel.getD 0)) = 1) ∧
    (Lib.isNumberedList (some g) lid (b.nestingLevel.getD 0)
        (some (Export.listItemCounts doc.body)) = false ↔
      2 ≤ Export.listItemCounts doc.body
        (lid ++ ":" ++ GD.intToString (b.nestingLevel.getD 0))) := by
  have hkey : Export.bulletKey b =
      lid ++ ":" ++ GD.intToString (b.nestingLevel.getD 0) := by
    simp [Export.bulletKey, hlid]
  have hpos : 1 ≤ Export.listItemCounts doc.body
      (lid ++ ":" ++ GD.intToString (b.nestingLevel.getD 0)) := by
    rw [← hkey]; exact listItemCounts_pos doc.body p b hmem hb
  set n := Export.listItemCounts doc.body
    (lid ++ ":" ++ GD.intToString (b.nestingLevel.getD 0)) with hn
  have hnz : ¬ n = 0 := by omega
  refine ⟨?_, ?_, ?_⟩
  · simp [Export.isNumberedOf, Lib.isNumberedList, hsym, htype,
      Lib.NUMBERED_GLYPH_TYPES, ← hn, hnz]
  · simp only [Lib.isNumberedList, hsym, htype, Option.bind_some,
      Option.some_bind, Option.isSome_none, Bool.false_eq_true, if_false,
      Lib.NUMBERED_GLYPH_TYPES, ← hn]
    simp [hnz]
  · simp only [Lib.isNumberedList, hsym, htype, Option.bind_some,
      Option.some_bind, Option.isSome_none, Bool.false_eq_true, if_false,
      Lib.NUMBERED_GLYPH_TYPES, ← hn]
    simp [hnz]
    omega

/-- C4 witness: item "A" of the scenario document — its
`(listId, level)` key `L:0` counts two paragraphs, so an unspecified
glyph there renders unordered. -/
theorem c4_unspecified_glyph_heuristic_witness :
    Lib.isNumberedList (some ⟨none, some "GLYPH_TYPE_UNSPECIFIED"⟩) "L" 0
      (some (Export.listItemCounts Spec.scenarioDoc.body)) = false :=
  ((c4_unspecified_glyph_heuristic Spec.scenarioDoc
      (Spec.textPara none (some ⟨some "L", some 0⟩) "A")
      ⟨some "L", some 0⟩ "L" ⟨none, some "GLYPH_TYPE_UNSPECIFIED"⟩
      (by decide) rfl rfl rfl rfl).2.2).mpr (by decide)

theorem main_isSame_refl (s : GDoc.TextStyle) :
    Main.isSameTextStyle s s = true := by
  simp only [Main.isSameTextStyle, beq_self_eq_true, Bool.and_self,
    Bool.true_and]

theorem beqComm {α : Type} [BEq α] [LawfulBEq α] (a b : α) :
    (a == b) = (b == a) := by
  by_cases h : a = b
  · subst h; rfl
  · rw [beq_eq_false_iff_ne.mpr h, beq_eq_false_iff_ne.mpr (Ne.symm h)]

theorem main_isSame_symm (a b : GDoc.TextStyle) :
    Main.isSameTextStyle a b = Main.isSameTextStyle b a := by
  simp only [Main.isSameTextStyle]
  rw [beqComm (Export.normB a.bold) (Export.normB b.bold),
    beqComm (Export.normB a.italic) (Export.normB b.italic),
    beqComm (Export.normB a.underline) (Export.normB b.underline),
    beqComm (Export.normB a.strikethrough) (Export.normB b.strikethrough),
    beqComm (GDoc.truthyStr a.baselineOffset) (GDoc.truthyStr b.baselineOffset),
    beqComm a.fontSize b.fontSize,
    beqComm a.weightedFontFamily b.weightedFontFamily,
    beqComm a.foregroundColor b.foregroundColor,
    beqComm a.link b.link]

theorem sepRuns_of_not_run (a b : GDoc.ParaElement)
    (h : ∀ tr, a ≠ GDoc.ParaElement.textRun tr) : Main.SepRuns a b := by
  intro ta tb ha hb
  exact absurd ha (h ta)

theorem sepRuns_symm (a b : GDoc.ParaElement) (h : Main.SepRuns a b) :
    Main.SepRuns b a := by
  intro ta tb ha hb
  rw [main_isSame_symm]
  exact h tb ta hb ha

theorem mergeStep_inv (st : List GDoc.ParaElement × Bool)
    (e : GDoc.ParaElement)
    (h : List.Chain' Main.SepRuns st.1 ∧
      (st.2 = true →
        ∃ tr rest, st.1 = GDoc.ParaElement.textRun tr :: rest) ∧
      (st.2 = false → st.1 = [] ∨
        ∃ a rest, st.1 = a :: rest ∧
          ∀ tr, a ≠ GDoc.ParaElement.textRun tr)) :
    List.Chain' Main.SepRuns (Main.mergeStep st e).1 ∧
      ((Main.mergeStep st e).2 = true →
        ∃ tr rest,
          (Main.mergeStep st e).1 = GDoc.ParaElement.textRun tr :: rest) ∧
      ((Main.mergeStep st e).2 = false → (Main.mergeStep st e).1 = [] ∨
        ∃ a rest, (Main.mergeStep st e).1 = a :: rest ∧
          ∀ tr, a ≠ GDoc.ParaElement.textRun tr) := by
  obtain ⟨hchain, hrun, hnorun⟩ := h
  obtain ⟨acc, flag⟩ := st
  cases e with
  | inlineObjectElement o =>
    refine ⟨?_, by simp [Main.mergeStep], ?_⟩
    · rw [Main.mergeStep, List.chain'_cons']
      exact ⟨fun b _ => sepRuns_of_not_run _ b (by simp), hchain⟩
    · intro _
      exact Or.inr ⟨_, acc, rfl, by simp⟩
  | footnoteReference f => exact ⟨hchain, hrun, hnorun⟩
  | equation q => exact ⟨hchain, hrun, hnorun⟩
  | autoText a => exact ⟨hchain, hrun, hnorun⟩
  | textRun tr =>
    cases flag with
    | true =>
      obtain ⟨tr0, rest, hacc⟩ := hrun rfl
      subst hacc
      by_cases hsame : Main.isSameTextStyle tr0.textStyle tr.textStyle = true
      · have hstep : Main.mergeStep
            (GDoc.ParaElement.textRun tr0 :: rest, true)
            (GDoc.ParaElement.textRun tr) =
            (GDoc.ParaElement.textRun
              ⟨tr0.content ++ tr.content, tr0.textStyle⟩ :: rest, true) := by
          simp [Main.mergeStep, hsame]
        rw [hstep]
        rw [List.chain'_cons'] at hchain
        refine ⟨List.chain'_cons'.mpr ⟨?_, hchain.2⟩, fun _ => ⟨_, rest, rfl⟩,
          by simp⟩
        intro b hb ta tb hta htb
        have : ta.textStyle = tr0.textStyle := by
          cases hta; rfl
        rw [this]
        exact hchain.1 b hb tr0 tb rfl htb
      · have hsame' : Main.isSameTextStyle tr0.textStyle tr.textStyle =
            false := by
          cases hx : Main.isSameTextStyle tr0.textStyle tr.textStyle
          · rfl
          · exact absurd hx hsame
        have hstep : Main.mergeStep
            (GDoc.ParaElement.textRun tr0 :: rest, true)
            (GDoc.ParaElement.textRun tr) =
            (GDoc.ParaElement.textRun tr ::
              GDoc.ParaElement.textRun tr0 :: rest, true) := by
          simp [Main.mergeStep, hsame']
        rw [hstep]
        refine ⟨List.chain'_cons'.mpr ⟨?_, hchain⟩, fun _ => ⟨_, _, rfl⟩,
          by simp⟩
        intro b hb ta tb hta htb
        simp only [List.head?_cons, Option.mem_def, Option.some.injEq] at hb
        subst hb
        cases hta
        cases htb
        rw [main_isSame_symm]
        exact hsame'
    | false =>
      have hstep : Main.mergeStep (acc, false) (GDoc.ParaElement.textRun tr) =
          (GDoc.ParaElement.textRun tr :: acc, true) := by
        simp [Main.mergeStep]
      rw [hstep]
      refine ⟨List.chain'_cons'.mpr ⟨?_, hchain⟩, fun _ => ⟨_, _, rfl⟩,
        by simp⟩
      intro b hb ta tb hta htb
      rcases hnorun rfl with hnil | ⟨a, rest, harest, hanorun⟩
      · subst hnil; simp at hb
      · subst harest
        simp only [List.head?_cons, Option.mem_def, Option.some.injEq] at hb
        subst hb
        exact absurd htb (hanorun tb)

theorem merge_fold_inv (es : List GDoc.ParaElement)
    (st : List GDoc.ParaElement × Bool)
    (h : List.Chain' Main.SepRuns st.1 ∧
      (st.2 = true →
        ∃ tr rest, st.1 = GDoc.ParaElement.textRun tr :: rest) ∧
      (st.2 = false → st.1 = [] ∨
        ∃ a rest, st.1 = a :: rest ∧
          ∀ tr, a ≠ GDoc.ParaElement.textRun tr)) :
    List.Chain' Main.SepRuns (es.foldl Main.mergeStep st).1 := by
  induction es generalizing st with
  | nil => exact h.1
  | cons e rest ih =>
    simpa using ih (Main.mergeStep st e) (mergeStep_inv st e h)

/-- C7: adjacent text runs with identical tracked style merge into one
run with concatenated content; runs whose tracked styles differ (per
`isSameTextStyle`) stay separate; and in general no two adjacent text
runs of the merged output share a tracked style. -/
theorem c7_merge_text_runs :
    (∀ (c1 c2 : String) (s : GDoc.TextStyle),
      Main.mergeTextRuns
        [GDoc.ParaElement.textRun ⟨c1, s⟩,
         GDoc.ParaElement.textRun ⟨c2, s⟩] =
        [GDoc.ParaElement.textRun ⟨c1 ++ c2, s⟩]) ∧
    (∀ (c1 c2 : String) (s1 s2 : GDoc.TextStyle),
      Main.isSameTextStyle s1 s2 = false →
      Main.mergeTextRuns
        [GDoc.ParaElement.textRun ⟨c1, s1⟩,
         GDoc.ParaElement.textRun ⟨c2, s2⟩] =
        [GDoc.ParaElement.textRun ⟨c1, s1⟩,
         GDoc.ParaElement.textRun ⟨c2, s2⟩]) ∧
    (∀ es : List GDoc.ParaElement,
      Main.noAdjacentSame (Main.mergeTextRuns es)) := by
  refine ⟨?_, ?_, ?_⟩
  · intro c1 c2 s
    simp [Main.mergeTextRuns, Main.mergeStep, main_isSame_refl]
  · intro c1 c2 s1 s2 h
    simp [Main.mergeTextRuns, Main.mergeStep, h]
  · intro es
    have hchain : List.Chain' Main.SepRuns
        (es.foldl Main.mergeStep ([], false)).1 :=
      merge_fold_inv es ([], false)
        ⟨List.chain'_nil, by simp, fun _ => Or.inl rfl⟩
    rw [Main.noAdjacentSame, Main.mergeTextRuns]
    rw [List.chain'_reverse]
    exact hchain.imp fun a b hab => sepRuns_symm a b hab

/-- C7 witness: `"Hello " + "World"` with equal styles merges to
`"Hello World"`; a bold run next to a plain one stays separate. -/
theorem c7_merge_text_runs_witness :
    Main.mergeTextRuns
      [GDoc.ParaElement.textRun ⟨"Hello ", GDoc.emptyTextStyle⟩,
       GDoc.ParaElement.textRun ⟨"World", GDoc.emptyTextStyle⟩] =
      [GDoc.ParaElement.textRun ⟨"Hello " ++ "World",
        GDoc.emptyTextStyle⟩] ∧
    Main.mergeTextRuns
      [GDoc.ParaElement.textRun
        ⟨"Hello ", { GDoc.emptyTextStyle with bold := some true }⟩,
       GDoc.ParaElement.textRun ⟨"World", GDoc.emptyTextStyle⟩] =
      [GDoc.ParaElement.textRun
        ⟨"Hello ", { GDoc.emptyTextStyle with bold := some true }⟩,
       GDoc.ParaElement.textRun ⟨"World", GDoc.emptyTextStyle⟩] :=
  ⟨c7_merge_text_runs.1 "Hello " "World" GDoc.emptyTextStyle,
   c7_merge_text_runs.2.1 "Hello " "World"
     { GDoc.emptyTextStyle with bold := some true } GDoc.emptyTextStyle
     (by decide)⟩

theorem startsWithL_refl_append (p m : List Char) :
    GD.startsWithL p (p ++ m) = true := by
  induction p with
  | nil => rfl
  | cons c cs ih => simp [GD.startsWithL, ih]

theorem sw_append (p x : String) : GD.sw p (p ++ x) = true := by
  rw [GD.sw, String.data_append]
  exact startsWithL_refl_append _ _

theorem ne_of_get1 (a b : String) (ca cb : Char)
    (ha : a.data.get? 1 = some ca) (hb : b.data.get? 1 = some cb)
    (h : ca ≠ cb) : a ≠ b := by
  intro he
  rw [he, hb] at ha
  exact h (Option.some.inj ha).symm

theorem data_append_ul (z : String) :
    ("<ul" ++ z).data = '<' :: 'u' :: 'l' :: z.data := by
  rw [String.data_append]; rfl

theorem data_append_ol (z : String) :
    ("<ol" ++ z).data = '<' :: 'o' :: 'l' :: z.data := by
  rw [String.data_append]; rfl

theorem open_line_ul (z : String) :
    (("<ul" ++ z) == "</ul>") = false ∧ (("<ul" ++ z) == "</ol>") = false ∧
      GD.sw "<ul" ("<ul" ++ z) = true := by
  refine ⟨?_, ?_, sw_append "<ul" z⟩ <;>
    exact beq_eq_false_iff_ne.mpr
      (ne_of_get1 _ _ 'u' '/' (by rw [data_append_ul]; rfl) rfl (by decide))

theorem open_line_ol (z : String) :
    (("<ol" ++ z) == "</ul>") = false ∧ (("<ol" ++ z) == "</ol>") = false ∧
      GD.sw "<ol" ("<ol" ++ z) = true := by
  refine ⟨?_, ?_, sw_append "<ol" z⟩ <;>
    exact beq_eq_false_iff_ne.mpr
      (ne_of_get1 _ _ 'o' '/' (by rw [data_append_ol]; rfl) rfl (by decide))

theorem countClosings_append (a b : List String) :
    Spec.countClosings (a ++ b) =
      Spec.countClosings a + Spec.countClosings b := by
  simp [Spec.countClosings, List.filter_append]

theorem countOpenings_append (a b : List String) :
    Spec.countOpenings (a ++ b) =
      Spec.countOpenings a + Spec.countOpenings b := by
  simp [Spec.countOpenings, List.filter_append]

theorem countClosings_open_ul (z : String) :
    Spec.countClosings [("<ul" ++ z)] = 0 ∧
      Spec.countOpenings [("<ul" ++ z)] = 1 := by
  constructor
  · simp [Spec.countClosings, (open_line_ul z).1, (open_line_ul z).2.1]
  · simp [Spec.countOpenings, (open_line_ul z).2.2]

theorem countClosings_open_ol (z : String) :
    Spec.countClosings [("<ol" ++ z)] = 0 ∧
      Spec.countOpenings [("<ol" ++ z)] = 1 := by
  constructor
  · simp [Spec.countClosings, (open_line_ol z).1, (open_line_ol z).2.1]
  · simp [Spec.countOpenings, (open_line_ol z).2.2]

theorem str_reassoc_ulrtl (x : String) :
    "<ul dir=\"rtl\"" ++ x ++ ">" = "<ul" ++ (" dir=\"rtl\"" ++ (x ++ ">")) := by
  rw [show ("<ul dir=\"rtl\"" : String) = "<ul" ++ " dir=\"rtl\"" from rfl,
    String.append_assoc, String.append_assoc]

theorem str_reassoc_olrtl (x : String) :
    "<ol dir=\"rtl\"" ++ x ++ ">" = "<ol" ++ (" dir=\"rtl\"" ++ (x ++ ">")) := by
  rw [show ("<ol dir=\"rtl\"" : String) = "<ol" ++ " dir=\"rtl\"" from rfl,
    String.append_assoc, String.append_assoc]

theorem str_reassoc_ul (x : String) :
    "<ul" ++ x ++ ">" = "<ul" ++ (x ++ ">") := String.append_assoc _ _ _

theorem str_reassoc_ol (x : String) :
    "<ol" ++ x ++ ">" = "<ol" ++ (x ++ ">") := String.append_assoc _ _ _

theorem libDoAction_balance (st : List String) (a : String) :
    Spec.countClosings (Lib.libDoAction st a).2 +
      (Lib.libDoAction st a).1.length ≤
    st.length + Spec.countOpenings (Lib.libDoAction st a).2 := by
  simp only [Lib.libDoAction]
  split
  · -- start action: four push branches
    rw [str_reassoc_ulrtl, str_reassoc_olrtl, str_reassoc_ul, str_reassoc_ol]
    split
    · simp [(countClosings_open_ul _).1, (countClosings_open_ul _).2]
    · split
      · simp [(countClosings_open_ol _).1, (countClosings_open_ol _).2]
      · split
        · simp [(countClosings_open_ul _).1, (countClosings_open_ul _).2]
        · simp [(countClosings_open_ol _).1, (countClosings_open_ol _).2]
  · split
    · -- endLIST branch
      cases st with
      | nil => simp [Spec.countClosings, Spec.countOpenings]
      | cons top rest =>
        by_cases htop : top = "" <;>
          simp only [htop, if_true, if_false, reduceIte] <;>
          (try split) <;>
          simp [Spec.countClosings, Spec.countOpenings] <;>
          try omega
    · split
      · -- other end actions
        cases st with
        | nil => simp [Spec.countClosings, Spec.countOpenings]
        | cons top rest =>
          by_cases htop : top = "" <;>
            simp only [htop, if_true, if_false, reduceIte] <;>
            (try split) <;>
            simp [Spec.countClosings, Spec.countOpenings] <;>
            try omega
      · simp [Spec.countClosings, Spec.countOpenings]

theorem libStep_fold_balance (acts : List String) (st0 out0 : List String) :
    Spec.countClosings ((acts.foldl Lib.libStep (st0, out0)).2) +
      ((acts.foldl Lib.libStep (st0, out0)).1).length +
      Spec.countOpenings out0 ≤
    Spec.countClosings out0 + st0.length +
      Spec.countOpenings ((acts.foldl Lib.libStep (st0, out0)).2) := by
  induction acts generalizing st0 out0 with
  | nil => simp
  | cons a acts ih =>
    simp only [List.foldl_cons, Lib.libStep]
    have hb := libDoAction_balance st0 a
    have ih' := ih (Lib.libDoAction st0 a).1
      (out0 ++ (Lib.libDoAction st0 a).2)
    rw [countClosings_append, countOpenings_append] at ih'
    omega

/-- C9: `handleListState` in `lib/lists.js` is total and pop-safe: an
`endLIST` (or any other `end…`) action on an empty list stack is skipped
— the popped value is checked before use — emitting no close tag; and
over any action string the number of `</ul>`/`</ol>` lines emitted never
exceeds the number of frames initially on the stack plus the number of
list open tags emitted during the same call. -/
theorem c9_handleListState_safety :
    (∀ (lc : Option String) (st : List String),
      Spec.countClosings (Lib.handleListState lc st).2 +
        (Lib.handleListState lc st).1.length ≤
      st.length + Spec.countOpenings (Lib.handleListState lc st).2) ∧
    Lib.handleListState (some "endLIST") [] = ([], []) ∧
    Lib.handleListState (some "endUL") [] = ([], []) := by
  refine ⟨?_, by decide, by decide⟩
  intro lc st
  cases lc with
  | none => simp [Lib.handleListState, Spec.countClosings, Spec.countOpenings]
  | some lc =>
    by_cases hlc : lc = ""
    · simp [Lib.handleListState, hlc, Spec.countClosings, Spec.countOpenings]
    · have h := libStep_fold_balance (GD.jsSplit lc '|') st []
      simp only [Spec.countClosings, Spec.countOpenings, List.filter_nil,
        List.length_nil] at h
      simp only [Lib.handleListState, hlc, if_false, reduceIte]
      simp only [Spec.countClosings, Spec.countOpenings] at h ⊢
      omega

theorem if_flip {α : Type} (p q : Bool) (x : α) :
    (if (!p || q) = true then some x else none) =
    (if (p && !q) = true then none else some x) := by
  cases p <;> cases q <;> rfl

theorem splitCharL_pre (sep : Char) (pre : List Char) (rest : List Char)
    (hpre : sep ∉ pre) :
    GD.splitCharL sep (pre ++ sep :: rest) = pre :: GD.splitCharL sep rest := by
  induction pre with
  | nil => simp [GD.splitCharL]
  | cons c cs ih =>
    have hc : c ≠ sep := fun h => hpre (h ▸ List.mem_cons_self c cs)
    have hcs : sep ∉ cs := fun h => hpre (List.mem_cons_of_mem c h)
    simp only [List.cons_append, GD.splitCharL, if_neg hc]
    rw [show cs.append (sep :: rest) = cs ++ sep :: rest from rfl, ih hcs]

theorem splitCharL_ne_nil (sep : Char) (l : List Char) :
    GD.splitCharL sep l ≠ [] := by
  cases l with
  | nil => simp [GD.splitCharL]
  | cons c cs =>
    simp only [GD.splitCharL]
    split
    · simp
    · split <;> simp

theorem jsSplit_frame_head (ft lvlStr : String) (hft : ':' ∉ ft.data) :
    (GD.jsSplit (ft ++ ":" ++ lvlStr) ':').headD "" = ft := by
  have hdata : (ft ++ ":" ++ lvlStr).data = ft.data ++ ':' :: lvlStr.data := by
    rw [String.data_append, String.data_append, List.append_assoc]
    rfl
  rw [GD.jsSplit, hdata, splitCharL_pre ':' ft.data lvlStr.data hft]
  rfl

/-- **C3** (amended).  At an unchanged nesting level, the two
`detectListChange` implementations disagree about the list identifier.
First conjunct: the `src/unnamed/part_005` variant emits the
`end…|start…` pair exactly when the open frame's type differs from the
wanted kind+RTL type **or** the (truthy) previous list id differs from
the paragraph's list id — this matches the claim.  Second conjunct: the
`src/lib/lists.js` variant never reads `prevListId` at all, so for it a
list-identifier change alone can never trigger a close+open pair,
refuting the claim's "or list identifier differs" for that
implementation. -/
theorem c3_same_level_switch (doc : GDoc.Document) (b : GDoc.Bullet)
    (lid : String) (levels : List GDoc.Glyph) (ft lvlStr : String)
    (rest : List String) (isRTL : Bool) (prevLevel : Int)
    (prevListId : Option String) (para : GDoc.Paragraph)
    (stack : List String) (rtl : Bool) (pl : Int) (p1 p2 : Option String)
    (h1 : b.listId = some lid)
    (h2 : b.nestingLevel.getD 0 = prevLevel)
    (h3 : ((GDoc.lookupA doc.lists lid).bind
      (fun d => d.listProperties.bind (·.nestingLevels))) = some levels)
    (hft : ':' ∉ ft.data) :
    (Export.detectListChange b doc ((ft ++ ":" ++ lvlStr) :: rest) isRTL
        prevLevel prevListId =
      (let glyph := if 0 ≤ prevLevel then levels.get? prevLevel.toNat
                    else none
       let isNumbered := Export.isNumberedOf glyph lid prevLevel
         doc.extListItemCounts
       let wantType := GD.toLowerS (if isNumbered then "OL" else "UL") ++
         (if isRTL then "_rtl" else "")
       let idChanged : Bool :=
         match GDoc.truthyStr prevListId with
         | some p => p != lid
         | none => false
       if ft == wantType && !idChanged then none
       else some ("end" ++ (if ft = "" then "UL" else GD.toUpperS ft) ++
         "|" ++ ("start" ++ (if isNumbered then "OL" else "UL") ++
         (if isRTL then "_RTL" else "") ++ ":" ++
         GD.intToString prevLevel)))) ∧
    Lib.detectListChange para doc stack rtl pl p1 =
      Lib.detectListChange para doc stack rtl pl p2 := by
  refine ⟨?_, rfl⟩
  simp only [Export.detectListChange, h1, h2, h3]
  simp only [List.length_cons, Nat.succ_ne_zero, if_false, lt_irrefl,
    gt_iff_lt, reduceIte, List.head?_cons, Option.map_some']
  rw [jsSplit_frame_head ft lvlStr hft]
  have hsome : ∀ (x y : String), (some x != some y) = (x != y) :=
    fun x y => rfl
  rw [hsome]
  simp only [bne]
  exact if_flip _ _ _

/-- **C3** witness: the amended theorem applied to a concrete document
with two unordered lists `A` and `B`, an open `ul:0` frame from list
`A`, and a level-0 bullet of list `B`. -/
theorem c3_same_level_switch_witness :
    Export.detectListChange ⟨some "B", some 0⟩ Spec.c3doc ["ul:0"] false 0
        (some "A") = some "endUL|startUL:0" ∧
    Lib.detectListChange Spec.c3para Spec.c3doc ["ul:0"] false 0
        (some "A") =
      Lib.detectListChange Spec.c3para Spec.c3doc ["ul:0"] false 0
        (some "B") := by
  have h := c3_same_level_switch Spec.c3doc ⟨some "B", some 0⟩ "B"
    [⟨some "●", none⟩, ⟨some "○", none⟩] "ul" "0" [] false 0 (some "A")
    Spec.c3para ["ul:0"] false 0 (some "A") (some "B")
    rfl rfl rfl (by decide)
  exact ⟨h.1.trans (by decide), h.2⟩

/-- **C3** counterexample to the original claim: same nesting level,
same list kind (`ul`), same RTL flag (`false`), but the list identifier
changes from `A` to `B`.  The claim demands a close-current+open-new
pair from both cited implementations; `src/unnamed/part_005` emits it,
but `src/lib/lists.js` emits no structural action at all. -/
theorem c3_counterexample :
    Spec.c3para.bullet = some ⟨some "B", some 0⟩ ∧
    Lib.detectListChange Spec.c3para Spec.c3doc ["ul:0"] false 0
      (some "A") = none ∧
    Export.detectListChange ⟨some "B", some 0⟩ Spec.c3doc ["ul:0"] false 0
      (some "A") = some "endUL|startUL:0" := by
  refine ⟨rfl, ?_, ?_⟩ <;> decide

/-! ## C2: balance of the emitted list tags -/

theorem runDyck_nil (s : List Spec.LTag) : Spec.runDyck [] s = some s := rfl

theorem runDyck_cons_none (l : String) (ls : List String)
    (s : List Spec.LTag) (h : Spec.lineTagEvent l = none) :
    Spec.runDyck (l :: ls) s = Spec.runDyck ls s := by
  simp [Spec.runDyck, h]

theorem runDyck_cons_open (l : String) (ls : List String)
    (s : List Spec.LTag) (t : Spec.LTag)
    (h : Spec.lineTagEvent l = some (true, t)) :
    Spec.runDyck (l :: ls) s = Spec.runDyck ls (t :: s) := by
  simp [Spec.runDyck, h]

theorem runDyck_cons_close (l : String) (ls : List String)
    (t : Spec.LTag) (s : List Spec.LTag)
    (h : Spec.lineTagEvent l = some (false, t)) :
    Spec.runDyck (l :: ls) (t :: s) = Spec.runDyck ls s := by
  simp [Spec.runDyck, h]

theorem runDyck_append (a b : List String) :
    ∀ (s sm : List Spec.LTag), Spec.runDyck a s = some sm →
      Spec.runDyck (a ++ b) s = Spec.runDyck b sm := by
  induction a with
  | nil =>
    intro s sm h
    simp only [Spec.runDyck] at h
    cases h
    rfl
  | cons l ls ih =>
    intro s sm h
    rw [List.cons_append]
    cases hev : Spec.lineTagEvent l with
    | none =>
      rw [runDyck_cons_none _ _ _ hev] at h ⊢
      exact ih _ _ h
    | some ev =>
      obtain ⟨op, t⟩ := ev
      cases op with
      | true =>
        rw [runDyck_cons_open _ _ _ _ hev] at h ⊢
        exact ih _ _ h
      | false =>
        cases s with
        | nil => simp [Spec.runDyck, hev] at h
        | cons t0 s0 =>
          by_cases ht : t0 = t
          · subst ht
            rw [runDyck_cons_close _ _ _ _ hev] at h ⊢
            exact ih _ _ h
          · simp [Spec.runDyck, hev, ht] at h

theorem lte_none_of_get1c (l : String) (c : Char)
    (hg : l.data.get? 1 = some c)
    (hu : c ≠ 'u') (ho : c ≠ 'o') (hs : c ≠ '/') :
    Spec.lineTagEvent l = none := by
  unfold Spec.lineTagEvent
  rw [if_neg, if_neg, if_neg, if_neg]
  · intro he; apply hs; rw [he] at hg; exact (Option.some.inj hg).symm
  · intro he; apply hs; rw [he] at hg; exact (Option.some.inj hg).symm
  · rintro (he | he) <;>
      (apply ho; rw [he] at hg; exact (Option.some.inj hg).symm)
  · rintro (he | he) <;>
      (apply hu; rw [he] at hg; exact (Option.some.inj hg).symm)

theorem runDyck_closeAllLists (st : List String) :
    Spec.runDyck (Export.closeAllLists st) (st.map Spec.absTag) = some [] := by
  induction st with
  | nil => rfl
  | cons top rest ih =>
    simp only [Export.closeAllLists, List.map_cons]
    by_cases h : GD.sw "u" top
    · rw [if_pos h, show Spec.absTag top = Spec.LTag.ul from by
        simp [Spec.absTag, h]]
      rw [runDyck_cons_close _ _ _ _ (by decide)]
      exact ih
    · rw [if_neg h, show Spec.absTag top = Spec.LTag.ol from by
        simp [Spec.absTag, h]]
      rw [runDyck_cons_close _ _ _ _ (by decide)]
      exact ih

theorem sw_u_split_head (f : String) :
    GD.sw "u" ((GD.jsSplit f ':').headD "") = GD.sw "u" f := by
  show GD.sw "u" (((GD.splitCharL ':' f.data).map String.mk).headD "") = _
  cases hcs : f.data with
  | nil => simp [GD.splitCharL, GD.sw, hcs, GD.startsWithL]
  | cons c cs =>
    by_cases hc : c = ':'
    · simp only [GD.splitCharL, hc, if_pos rfl, List.map_cons, List.headD_cons]
      simp [GD.sw, hcs, hc, GD.startsWithL]
    · simp only [GD.splitCharL, if_neg hc]
      cases htl : GD.splitCharL ':' cs with
      | nil => exact absurd htl (splitCharL_ne_nil ':' cs)
      | cons h0 t0 =>
        simp only [List.map_cons, List.headD_cons]
        simp [GD.sw, hcs, GD.startsWithL]

theorem absTag_frame_ulrtl (lvl : String) :
    Spec.absTag ("ul_rtl:" ++ lvl) = Spec.LTag.ul ∧ ("ul_rtl:" ++ lvl) ≠ "" := by
  constructor
  · simp only [Spec.absTag, GD.sw, String.data_append]; rfl
  · intro he
    have hd := congrArg String.data he
    rw [String.data_append] at hd
    simp at hd

theorem absTag_frame_olrtl (lvl : String) :
    Spec.absTag ("ol_rtl:" ++ lvl) = Spec.LTag.ol ∧ ("ol_rtl:" ++ lvl) ≠ "" := by
  constructor
  · simp only [Spec.absTag, GD.sw, String.data_append]; rfl
  · intro he
    have hd := congrArg String.data he
    rw [String.data_append] at hd
    simp at hd

theorem absTag_frame_ul (lvl : String) :
    Spec.absTag ("ul:" ++ lvl) = Spec.LTag.ul ∧ ("ul:" ++ lvl) ≠ "" := by
  constructor
  · simp only [Spec.absTag, GD.sw, String.data_append]; rfl
  · intro he
    have hd := congrArg String.data he
    rw [String.data_append] at hd
    simp at hd

theorem absTag_frame_ol (lvl : String) :
    Spec.absTag ("ol:" ++ lvl) = Spec.LTag.ol ∧ ("ol:" ++ lvl) ≠ "" := by
  constructor
  · simp only [Spec.absTag, GD.sw, String.data_append]; rfl
  · intro he
    have hd := congrArg String.data he
    rw [String.data_append] at hd
    simp at hd

theorem expDoAction_dyck (st : List String) (a : String)
    (hne : ∀ f ∈ st, f ≠ "") :
    Spec.runDyck (Export.expDoAction st a).2 (st.map Spec.absTag) =
      some ((Export.expDoAction st a).1.map Spec.absTag) ∧
    ∀ f ∈ (Export.expDoAction st a).1, f ≠ "" := by
  simp only [Export.expDoAction]
  split
  · split
    · refine ⟨?_, ?_⟩
      · rw [runDyck_cons_open "<ul dir=\"rtl\">" _ _ Spec.LTag.ul (by decide),
          runDyck_nil, List.map_cons, (absTag_frame_ulrtl _).1]
      · intro f hf
        rcases List.mem_cons.mp hf with h | h
        · exact h ▸ (absTag_frame_ulrtl _).2
        · exact hne f h
    · split
      · refine ⟨?_, ?_⟩
        · rw [runDyck_cons_open "<ol dir=\"rtl\">" _ _ Spec.LTag.ol (by decide),
            runDyck_nil, List.map_cons, (absTag_frame_olrtl _).1]
        · intro f hf
          rcases List.mem_cons.mp hf with h | h
          · exact h ▸ (absTag_frame_olrtl _).2
          · exact hne f h
      · split
        · refine ⟨?_, ?_⟩
          · rw [runDyck_cons_open "<ul>" _ _ Spec.LTag.ul (by decide),
              runDyck_nil, List.map_cons, (absTag_frame_ul _).1]
          · intro f hf
            rcases List.mem_cons.mp hf with h | h
            · exact h ▸ (absTag_frame_ul _).2
            · exact hne f h
        · refine ⟨?_, ?_⟩
          · rw [runDyck_cons_open "<ol>" _ _ Spec.LTag.ol (by decide),
              runDyck_nil, List.map_cons, (absTag_frame_ol _).1]
          · intro f hf
            rcases List.mem_cons.mp hf with h | h
            · exact h ▸ (absTag_frame_ol _).2
            · exact hne f h
  · split
    · split
      · exact ⟨rfl, by simp⟩
      · rename_i top rest
        have htop : top ≠ "" := hne top (List.mem_cons_self _ _)
        rw [if_neg htop]
        refine ⟨?_, fun f hf => hne f (List.mem_cons_of_mem _ hf)⟩
        rw [List.map_cons, sw_u_split_head]
        by_cases h : GD.sw "u" top
        · rw [if_pos h, show Spec.absTag top = Spec.LTag.ul from by
            simp [Spec.absTag, h]]
          rw [runDyck_cons_close "</ul>" _ Spec.LTag.ul _ (by decide),
            runDyck_cons_none "</li>" _ _ (by decide), runDyck_nil]
        · rw [if_neg h, show Spec.absTag top = Spec.LTag.ol from by
            simp [Spec.absTag, h]]
          rw [runDyck_cons_close "</ol>" _ Spec.LTag.ol _ (by decide),
            runDyck_cons_none "</li>" _ _ (by decide), runDyck_nil]
    · split
      · split
        · exact ⟨rfl, by simp⟩
        · rename_i top rest
          have htop : top ≠ "" := hne top (List.mem_cons_self _ _)
          rw [if_neg htop]
          refine ⟨?_, fun f hf => hne f (List.mem_cons_of_mem _ hf)⟩
          rw [List.map_cons, sw_u_split_head]
          by_cases h : GD.sw "u" top
          · rw [if_pos h, show Spec.absTag top = Spec.LTag.ul from by
              simp [Spec.absTag, h]]
            rw [runDyck_cons_close "</ul>" _ Spec.LTag.ul _ (by decide),
              runDyck_nil]
          · rw [if_neg h, show Spec.absTag top = Spec.LTag.ol from by
              simp [Spec.absTag, h]]
            rw [runDyck_cons_close "</ol>" _ Spec.LTag.ol _ (by decide),
              runDyck_nil]
      · exact ⟨rfl, hne⟩

theorem expFold_dyck (acts : List String) :
    ∀ (st : List String) (pre : List String) (m : List Spec.LTag),
      (∀ f ∈ st, f ≠ "") →
      Spec.runDyck pre m = some (st.map Spec.absTag) →
      Spec.runDyck (acts.foldl Export.expStep (st, pre)).2 m =
        some ((acts.foldl Export.expStep (st, pre)).1.map Spec.absTag) ∧
      ∀ f ∈ (acts.foldl Export.expStep (st, pre)).1, f ≠ "" := by
  induction acts with
  | nil =>
    intro st pre m h1 h2
    exact ⟨h2, h1⟩
  | cons a acts ih =>
    intro st pre m h1 h2
    rw [List.foldl_cons]
    have hstep := expDoAction_dyck st a h1
    simp only [Export.expStep]
    refine ih _ _ _ hstep.2 ?_
    rw [runDyck_append _ _ _ _ h2]
    exact hstep.1

theorem handleListState_dyck (lc : String) (st : List String)
    (h : ∀ f ∈ st, f ≠ "") :
    Spec.runDyck (Export.handleListState lc st).2 (st.map Spec.absTag) =
      some ((Export.handleListState lc st).1.map Spec.absTag) ∧
    ∀ f ∈ (Export.handleListState lc st).1, f ≠ "" := by
  unfold Export.handleListState
  exact expFold_dyck _ st [] (st.map Spec.absTag) h rfl

theorem insertInlineStyle_get1 (html style : String) (c : Char)
    (h : html.data.get? 1 = some c) (hc : c ≠ '>') :
    (Export.insertInlineStyle html style).data.get? 1 = some c := by
  unfold Export.insertInlineStyle
  split
  · exact h
  · cases hl : html.data with
    | nil => rw [hl] at h; simp at h
    | cons a l1 =>
      cases l1 with
      | nil => rw [hl] at h; simp at h
      | cons b t =>
        have hb : b = c := by
          rw [hl] at h
          exact Option.some.inj h
        subst hb
        by_cases ha : a = '>'
        · rw [List.findIdx?_cons, if_pos (by simp [ha])]
          simpa using h
        · rw [List.findIdx?_cons, if_neg (by simp [ha]),
            List.findIdx?_cons, if_neg (by simp [hc])]
          rw [List.findIdx?_succ, List.findIdx?_succ]
          obtain hfi | ⟨j, hfi⟩ :=
            Option.eq_none_or_eq_some (t.findIdx? (fun x => decide (x = '>')))
          · rw [hfi]
            simpa using h
          · rw [hfi]
            simp only [Option.map_some']
            rw [if_pos (by omega)]
            rfl

theorem tagOf_data (n : String) :
    ∃ c t, (Export.tagOf n).data = c :: t ∧ (c = 'p' ∨ c = 'h') := by
  unfold Export.tagOf
  split
  · exact ⟨'h', _, rfl, Or.inr rfl⟩
  · split
    · exact ⟨'h', _, rfl, Or.inr rfl⟩
    · split
      · split
        · rename_i plv lv heq
          split
          · exact ⟨'h', (GD.intToString lv).data,
              by rw [String.data_append]; rfl, Or.inr rfl⟩
          · exact ⟨'p', [], rfl, Or.inl rfl⟩
        · exact ⟨'p', [], rfl, Or.inl rfl⟩
      · exact ⟨'p', [], rfl, Or.inl rfl⟩

theorem paragraphHtml_get1 (tag hid dir inner sp : String) (c : Char)
    (t : List Char) (htag : tag.data = c :: t) :
    ("<" ++ tag ++ hid ++ dir ++ ">" ++ inner ++ "</" ++ sp ++
      ">").data.get? 1 = some c := by
  simp only [String.data_append, htag]
  rfl

theorem renderParagraph_line_inert (p : GDoc.Paragraph)
    (doc : GDoc.Document) (ls : List String) (pl : Int)
    (pid : Option String)
    (m : List (String × (GDoc.ParagraphStyle × GDoc.TextStyle))) :
    Spec.lineTagEvent (Export.renderParagraph p doc ls pl pid m).1 = none ∧
    Spec.lineTagEvent
      ("<li>" ++ (Export.renderParagraph p doc ls pl pid m).1) = none := by
  obtain ⟨c, t, htag, hc⟩ := tagOf_data
    ((GDoc.truthyStr p.paragraphStyle.namedStyleType).getD "NORMAL_TEXT")
  have hcne : c ≠ '>' := by
    rcases hc with h | h <;> rw [h] <;> decide
  have hg : (Export.renderParagraph p doc ls pl pid m).1.data.get? 1 =
      some c := by
    simp only [Export.renderParagraph]
    exact insertInlineStyle_get1 _ _ c
      (paragraphHtml_get1 _ _ _ _ _ c t htag) hcne
  constructor
  · refine lte_none_of_get1c _ c hg ?_ ?_ ?_ <;>
      (rcases hc with h | h <;> rw [h] <;> decide)
  · refine lte_none_of_get1c _ 'l' ?_ (by decide) (by decide) (by decide)
    rw [String.data_append]
    rfl

theorem renderTable_inert (rows : List GDoc.TableRow) (doc : GDoc.Document)
    (m : List (String × (GDoc.ParagraphStyle × GDoc.TextStyle))) :
    Spec.lineTagEvent (Export.renderTable rows doc m) = none := by
  refine lte_none_of_get1c _ 't' ?_ (by decide) (by decide) (by decide)
  unfold Export.renderTable
  rw [String.data_append, String.data_append]
  rfl

theorem renderTableOfContents_inert (entries : List (Option GDoc.Paragraph))
    (doc : GDoc.Document)
    (m : List (String × (GDoc.ParagraphStyle × GDoc.TextStyle))) :
    Spec.lineTagEvent (Export.renderTableOfContents entries doc m) = none := by
  refine lte_none_of_get1c _ 'd' ?_ (by decide) (by decide) (by decide)
  unfold Export.renderTableOfContents
  rw [String.data_append, String.data_append]
  rfl

theorem multiColumn_inert (n : Nat) :
    Spec.lineTagEvent
      ("<div class=\"multi-column\" style=\"column-count:" ++
        GD.natToString n ++ ";\">") = none := by
  refine lte_none_of_get1c _ 'd' ?_ (by decide) (by decide) (by decide)
  rw [String.data_append, String.data_append]
  rfl

theorem chunk4_dyck (a b c d : List String) (s0 s1 : List Spec.LTag)
    (h0 : Spec.runDyck a [] = some s0)
    (hb : ∀ s, Spec.runDyck b s = some s)
    (hc : Spec.runDyck c s0 = some s1)
    (hd : ∀ s, Spec.runDyck d s = some s) :
    Spec.runDyck (a ++ b ++ c ++ d) [] = some s1 := by
  have h1 : Spec.runDyck (a ++ b) [] = some s0 := by
    rw [runDyck_append _ _ _ _ h0]; exact hb _
  have h2 : Spec.runDyck (a ++ b ++ c) [] = some s1 := by
    rw [runDyck_append _ _ _ _ h1]; exact hc
  rw [runDyck_append _ _ _ _ h2]; exact hd _

theorem chunk5_dyck (a b c d e : List String) (s0 s1 : List Spec.LTag)
    (h0 : Spec.runDyck a [] = some s0)
    (hb : ∀ s, Spec.runDyck b s = some s)
    (hc : Spec.runDyck c s0 = some s1)
    (hd : ∀ s, Spec.runDyck d s = some s)
    (he : ∀ s, Spec.runDyck e s = some s) :
    Spec.runDyck (a ++ b ++ c ++ d ++ e) [] = some s1 := by
  rw [runDyck_append _ _ _ _ (chunk4_dyck a b c d s0 s1 h0 hb hc hd)]
  exact he _

theorem processElement_dyck (doc : GDoc.Document)
    (m : List (String × (GDoc.ParagraphStyle × GDoc.TextStyle)))
    (st : Export.ExpState) (el : GDoc.Element)
    (hne : ∀ f ∈ st.listStack, f ≠ "")
    (hinv : Spec.runDyck st.lines [] = some (st.listStack.map Spec.absTag)) :
    Spec.runDyck (Export.processElement doc m st el).lines [] =
      some ((Export.processElement doc m st el).listStack.map Spec.absTag) ∧
    ∀ f ∈ (Export.processElement doc m st el).listStack, f ≠ "" := by
  have hclose :
      Spec.runDyck (st.lines ++ Export.closeAllLists st.listStack) [] =
        some [] := by
    rw [runDyck_append _ _ _ _ hinv]
    exact runDyck_closeAllLists _
  cases el with
  | sectionBreak ss =>
    simp only [Export.processElement]
    refine ⟨?_, by simp⟩
    rw [List.map_nil]
    rw [runDyck_append _ _ _ _ hclose]
    rcases ss with _ | sectionStyle
    · rw [runDyck_cons_none _ _ _ (by decide), runDyck_nil]
    · dsimp only
      split
      · rw [runDyck_cons_none _ _ _ (by decide), runDyck_nil]
      · rcases hcp : sectionStyle.columnProperties with _ | cols
        · rw [runDyck_cons_none _ _ _ (by decide), runDyck_nil]
        · dsimp only
          split
          · rw [runDyck_cons_none _ _ _ (multiColumn_inert _), runDyck_nil]
          · rw [runDyck_cons_none _ _ _ (by decide), runDyck_nil]
  | tableOfContents entries =>
    simp only [Export.processElement]
    refine ⟨?_, by simp⟩
    rw [List.map_nil]
    rw [runDyck_append _ _ _ _ hclose,
      runDyck_cons_none _ _ _ (renderTableOfContents_inert _ _ _),
      runDyck_nil]
  | horizontalRule =>
    simp only [Export.processElement]
    refine ⟨?_, by simp⟩
    rw [List.map_nil]
    rw [runDyck_append _ _ _ _ hclose,
      runDyck_cons_none _ _ _ (by decide), runDyck_nil]
  | table rows =>
    simp only [Export.processElement]
    refine ⟨?_, by simp⟩
    rw [List.map_nil]
    rw [runDyck_append _ _ _ _ hclose,
      runDyck_cons_none _ _ _ (renderTable_inert _ _ _), runDyck_nil]
  | paragraph p =>
    simp only [Export.processElement]
    generalize hR : Export.renderParagraph p doc st.listStack
      st.prevNestingLevel st.prevListId m = R
    have hRin := renderParagraph_line_inert p doc st.listStack
      st.prevNestingLevel st.prevListId m
    rw [hR] at hRin
    have hone : ∀ s, Spec.runDyck [R.1] s = some s := fun s => by
      rw [runDyck_cons_none _ _ _ hRin.1, runDyck_nil]
    have hli : ∀ s, Spec.runDyck ["<li>" ++ R.1] s = some s := fun s => by
      rw [runDyck_cons_none _ _ _ hRin.2, runDyck_nil]
    have hclosetag : ∀ s, Spec.runDyck ["</li>"] s = some s := fun s => by
      rw [runDyck_cons_none "</li>" _ _ (by decide), runDyck_nil]
    have hAL :
        Spec.runDyck (match R.2 with
            | some lc =>
              if lc = "" then (st.listStack, ([] : List String))
              else Export.handleListState lc st.listStack
            | none => (st.listStack, [])).2
          (st.listStack.map Spec.absTag) =
          some ((match R.2 with
            | some lc =>
              if lc = "" then (st.listStack, ([] : List String))
              else Export.handleListState lc st.listStack
            | none => (st.listStack, [])).1.map Spec.absTag) ∧
        ∀ f ∈ (match R.2 with
            | some lc =>
              if lc = "" then (st.listStack, ([] : List String))
              else Export.handleListState lc st.listStack
            | none => (st.listStack, [])).1, f ≠ "" := by
      rcases R.2 with _ | lc
      · exact ⟨rfl, hne⟩
      · dsimp only
        split
        · exact ⟨rfl, hne⟩
        · exact handleListState_dyck lc st.listStack hne
    split
    · refine ⟨?_, hAL.2⟩
      refine chunk4_dyck _ _ _ _ _ _ hinv ?_ hAL.1 hli
      split
      · exact runDyck_nil
      · split
        · exact hclosetag
        · exact runDyck_nil
    · refine ⟨?_, hAL.2⟩
      refine chunk5_dyck _ _ _ _ _ _ _ hinv ?_ hAL.1 ?_ hone
      · split
        · exact runDyck_nil
        · split
          · exact hclosetag
          · exact runDyck_nil
      · split
        · exact hclosetag
        · exact runDyck_nil

theorem foldl_processElement_dyck (doc : GDoc.Document)
    (m : List (String × (GDoc.ParagraphStyle × GDoc.TextStyle)))
    (els : List GDoc.Element) :
    ∀ st : Export.ExpState, (∀ f ∈ st.listStack, f ≠ "") →
      Spec.runDyck st.lines [] = some (st.listStack.map Spec.absTag) →
      Spec.runDyck
          (els.foldl (Export.processElement doc m) st).lines [] =
        some ((els.foldl (Export.processElement doc m) st).listStack.map
          Spec.absTag) ∧
      ∀ f ∈ (els.foldl (Export.processElement doc m) st).listStack,
        f ≠ "" := by
  induction els with
  | nil => intro st h1 h2; exact ⟨h2, h1⟩
  | cons e es ih =>
    intro st h1 h2
    rw [List.foldl_cons]
    have h := processElement_dyck doc m st e h1 h2
    exact ih _ h.2 h.1

/-- **C2**: for every input document the body-content pass of
`exportDocToHTML` emits a balanced sequence of list open/close tags: the
list stack starts empty, every `<ul>`/`<ol>` a `handleListState` action
opens is closed by a matching `</ul>`/`</ol>` in well-nested order, and
the frames still open when the body ends are force-closed by the final
`closeAllLists`, so the matching-tag automaton run from the empty stack
over all emitted lines accepts with an empty stack. -/
theorem c2_list_tags_balanced (doc : GDoc.Document) :
    Spec.runDyck (Export.bodyLines doc) [] = some [] := by
  have hfold := foldl_processElement_dyck
    { doc with extListItemCounts := some (Export.listItemCounts doc.body) }
    (Export.buildNamedStylesMap
      { doc with extListItemCounts := some (Export.listItemCounts doc.body) })
    doc.body ⟨[], -1, none, []⟩ (by simp) rfl
  have hfold2 : Spec.runDyck (Export.exportBody doc).lines [] =
      some ((Export.exportBody doc).listStack.map Spec.absTag) := hfold.1
  unfold Export.bodyLines
  have hif : ∀ s, Spec.runDyck
      (if (Export.exportBody doc).prevNestingLevel ≥ 0 then ["</li>"]
       else []) s = some s := by
    intro s
    split
    · rw [runDyck_cons_none "</li>" _ _ (by decide), runDyck_nil]
    · exact runDyck_nil _
  have h1 : Spec.runDyck ((Export.exportBody doc).lines ++
      (if (Export.exportBody doc).prevNestingLevel ≥ 0 then ["</li>"]
       else [])) [] =
      some ((Export.exportBody doc).listStack.map Spec.absTag) := by
    rw [runDyck_append _ _ _ _ hfold2]
    exact hif _
  rw [runDyck_append _ _ _ _ h1]
  exact runDyck_closeAllLists _
